import Mathlib

/-!
Verification of the ffmirror metadata-mirror core (`ffmirror/metadb.py`,
`ffmirror/ffnet.py`) against its natural-language specification.

The development shallowly embeds the sync engine, archive engine and update
scheduler of `DBMirror` as pure Lean functions over an explicit database
state.  Conventions of the embedding:

* Wall-clock instants are integers (UTC); the Python `datetime.now(tz=utc)`
  calls become explicit `now : Int` parameters.
* The SQLAlchemy session is a `DB` record of row lists; `ds.commit()` is the
  point where a function returns an `.ok` database.  A Python exception is an
  `.error` result: the uncommitted session state is discarded, matching the
  "no partial commit" reading of an aborted unit of work.
* Python string operations used by the code (`str.lower`, `str.replace`,
  `str.split`) are re-implemented structurally on `List Char` so that all
  definitions reduce inside the kernel (ASCII case folding suffices for the
  category strings involved).
* The progress callback becomes a `Bool` flag ("was a sink supplied") plus an
  accumulated list of `JobStatus` events, in source order.
-/

namespace FFMirror

/-! ## Python string primitives -/

/-- ASCII case folding of one character, the fragment of `str.lower` exercised
by category strings. -/
def asciiLowerChar (c : Char) : Char :=
  if 'A' ≤ c ∧ c ≤ 'Z' then Char.ofNat (c.toNat + 32) else c

/-- Embedding of `str.lower` (ASCII fragment). -/
def pyLower (s : String) : String :=
  ⟨s.data.map asciiLowerChar⟩

/-- Embedding of `str.replace(",", "")`: removing every comma. -/
def removeCommas (s : String) : String :=
  ⟨s.data.filter (fun c => c ≠ ',')⟩

/-- Embedding of `str.split(" & ")` on character lists: leftmost,
non-overlapping occurrences of the three-character separator split the string;
`acc` holds the current segment reversed. -/
def splitAmpAux : List Char → List Char → List (List Char)
  | [], acc => [acc.reverse]
  | ' ' :: '&' :: ' ' :: rest, acc => acc.reverse :: splitAmpAux rest []
  | c :: rest, acc => splitAmpAux rest (c :: acc)

/-- Embedding of `category.split(" & ")`. -/
def splitAmp (s : String) : List String :=
  (splitAmpAux s.data []).map (fun l => ⟨l⟩)

/-- Python `set.add` on the list model of a set: append if absent. -/
def setInsert (l : List String) (x : String) : List String :=
  if x ∈ l then l else l ++ [x]

/-- Embedding of `cat_to_tagset` from `ffmirror/ffnet.py`: split the category
string on the literal `" & "`, lowercase each segment and strip commas, and
collect the results as a set. -/
def cat_to_tagset (category : String) : List String :=
  (splitAmp category).foldl (fun rv i => setInsert rv (removeCommas (pyLower i))) []

/-! ## The `TimeStamp` column type (metadb.py)

A Python `datetime` is modelled as a wall-clock reading `wall : Int` plus an
optional timezone offset `off` (in the same units as `wall`); `off = none` is
a naive datetime, `off = some 0` is an aware UTC datetime.  The UTC instant
denoted by an aware datetime is `wall - off`. -/

structure PyDateTime where
  wall : Int
  off : Option Int
  deriving Repr, DecidableEq

/-- The UTC instant an aware datetime denotes (for naive ones, the convention
that the wall clock reads UTC). -/
def PyDateTime.instant (d : PyDateTime) : Int :=
  d.wall - (d.off.getD 0)

/-- Embedding of `value.astimezone(utc)` on an aware datetime. -/
def astimezoneUtc (d : PyDateTime) : PyDateTime :=
  { wall := d.wall - (d.off.getD 0), off := some 0 }

/-- Embedding of `TimeStamp.process_bind_param`: naive datetimes raise
`ValueError`, aware datetimes are converted to UTC. -/
def process_bind_param (d : PyDateTime) : Except String PyDateTime :=
  match d.off with
  | none => .error "TimeStamp only supports TZ-aware datetimes"
  | some _ => .ok (astimezoneUtc d)

/-- The sqlite layer keeps only the wall-clock reading of the bound (UTC)
value; the stored representation is timezone-naive. -/
def sqliteStrip (d : PyDateTime) : PyDateTime :=
  { wall := d.wall, off := none }

/-- Embedding of `TimeStamp.process_result_value`: naive values read from the
database are interpreted as UTC, aware values are returned as-is. -/
def process_result_value (d : PyDateTime) : PyDateTime :=
  match d.off with
  | none => { d with off := some 0 }
  | some _ => d

/-! ## Adapter-side metadata records (`ffmirror/core.py`) -/

/-- Embedding of `AuthorInfo` (the fields the sync engine reads). -/
structure AuthorInfo where
  name : String
  id : String
  deriving Repr, DecidableEq

/-- Embedding of `StoryInfo` (the fields the sync engine reads), including the
dynamically attached `tags` set carried by list entries. -/
structure StoryInfo where
  title : String
  summary : String
  category : String
  id : String
  chapters : Int
  words : Int
  characters : String
  author : AuthorInfo
  genre : String
  site : String
  updated : Int
  published : Int
  complete : Bool
  tags : List String
  deriving Repr, DecidableEq

/-- Embedding of `ChapterInfo`. -/
structure ChapterInfo where
  title : String
  deriving Repr, DecidableEq

/-- Embedding of `JobStatus` from `ffmirror/util.py`.  `name` is an `Option`
because some callers pass nullable database columns. -/
structure JobStatus where
  type : String
  name : Option String
  progress : Option Int
  total : Option Int
  info : Option String
  deriving Repr, DecidableEq

/-- Result triple of `DownloadModule.download_list`. -/
structure ListResult where
  auth : List StoryInfo
  fav : List StoryInfo
  info : AuthorInfo
  deriving Repr, DecidableEq

/-- A site adapter: the `site_modules[archive]` capability set as used by
`metadb.py`.  Each function takes the archive key and returns either a value
or the message of a raised exception. -/
structure Adapter where
  download_list : String → String → Except String ListResult
  download_metadata : String → String → Except String (StoryInfo × List ChapterInfo)
  download_chapter : ChapterInfo → Except String String

/-! ## Database rows (`metadb.py` ORM classes) -/

/-- Embedding of the `Author` table row. -/
structure AuthorRow where
  aid : Nat
  name : String
  archive : String
  site_id : String
  md_synced : Option Int
  sync_int : Option Int
  in_mirror : Bool
  deriving Repr, DecidableEq

/-- Embedding of the `Chapter` table row (the `story_id` foreign key is
implicit: rows live inside their story's `all_chapters` list, which mirrors
the `order_by num` relationship). -/
structure ChapterRow where
  title : String
  num : Nat
  deriving Repr, DecidableEq

/-- Embedding of the `Story` table row. -/
structure StoryRow where
  sid : Nat
  title : Option String
  archive : String
  site_id : String
  words : Option Int
  chapters : Option Int
  published : Option Int
  updated : Option Int
  category : Option String
  summary : Option String
  characters : Option String
  complete : Option Bool
  genre : Option String
  download_time : Option Int
  download_fn : Option String
  author_id : Option Nat
  all_chapters : List ChapterRow
  deriving Repr, DecidableEq

/-- Embedding of the `Tag` table row. -/
structure TagRow where
  tid : Nat
  name : String
  date_added : Int
  deriving Repr, DecidableEq

/-- The database session state: the tables the sync/archive/scheduler core
touches, plus a fresh-primary-key counter.  `story_tags` holds
`(story sid, tag tid)` links, `fav_stories` holds `(author aid, story sid)`
links. -/
structure DB where
  authors : List AuthorRow
  stories : List StoryRow
  tags : List TagRow
  story_tags : List (Nat × Nat)
  fav_stories : List (Nat × Nat)
  next_id : Nat
  deriving Repr, DecidableEq

/-- A fresh `Story(archive=..., site_id=...)` row: every other column NULL. -/
def StoryRow.new (sid : Nat) (archive site_id : String) : StoryRow :=
  { sid := sid, title := none, archive := archive, site_id := site_id,
    words := none, chapters := none, published := none, updated := none,
    category := none, summary := none, characters := none, complete := none,
    genre := none, download_time := none, download_fn := none,
    author_id := none, all_chapters := [] }

/-- Row lookup by primary key (the live-object view of a session row). -/
def findStory (db : DB) (sid : Nat) : Option StoryRow :=
  db.stories.find? (fun r => r.sid == sid)

/-- Row lookup by primary key. -/
def findAuthor (db : DB) (aid : Nat) : Option AuthorRow :=
  db.authors.find? (fun r => r.aid == aid)

/-- Embedding of `DBMirror.get_story`: lookup by `(archive, site_id)`.  The
source uses `one_or_none`, which additionally raises when the key is
duplicated; the well-formedness hypotheses of the theorems below rule out
duplicate keys, under which `find?` agrees with it. -/
def get_story (db : DB) (archive sid : String) : Option StoryRow :=
  db.stories.find? (fun r => r.archive == archive && r.site_id == sid)

/-- Embedding of `DBMirror.get_author` (same `one_or_none` remark as
`get_story`). -/
def get_author (db : DB) (archive aid : String) : Option AuthorRow :=
  db.authors.find? (fun r => r.archive == archive && r.site_id == aid)

/-- In-place mutation of the story row with primary key `sid`. -/
def updStory (db : DB) (sid : Nat) (f : StoryRow → StoryRow) : DB :=
  { db with stories := db.stories.map (fun r => if r.sid == sid then f r else r) }

/-- In-place mutation of the author row with primary key `aid`. -/
def updAuthor (db : DB) (aid : Nat) (f : AuthorRow → AuthorRow) : DB :=
  { db with authors := db.authors.map (fun r => if r.aid == aid then f r else r) }

/-- The `stories_written` relationship of an author. -/
def stories_written (db : DB) (aoAid : Nat) : List StoryRow :=
  db.stories.filter (fun so => so.author_id == some aoAid)

/-- The `fav_stories` relationship of an author. -/
def fav_stories_of (db : DB) (aoAid : Nat) : List StoryRow :=
  db.stories.filter (fun so => db.fav_stories.contains (aoAid, so.sid))

/-- Embedding of the `si_d` index built by `sync_author`: a dict keyed by
`site_id` over `stories_written + fav_stories`, so a later occurrence of a key
overwrites an earlier one (hence the lookup returns the last occurrence). -/
def build_si_d (db : DB) (aoAid : Nat) : String → Option Nat := fun k =>
  ((stories_written db aoAid ++ fav_stories_of db aoAid).reverse.find?
    (fun s => s.site_id == k)).map (fun s => s.sid)

/-! ## Sync engine (`DBMirror._check_update`, `_story_from_md`,
`_handle_tags_for`, `sync_author`) -/

/-- Embedding of `DBMirror._check_update`: the change-detection predicate. -/
def check_update (so : StoryRow) (s : StoryInfo) : Bool :=
  so.words != some s.words || so.chapters != some s.chapters ||
    so.updated != some s.updated

/-- The block of field assignments `_story_from_md` performs when
`_check_update` holds. -/
def applyMd (s : StoryInfo) (so : StoryRow) : StoryRow :=
  { so with
    title := some s.title, words := some s.words,
    chapters := some s.chapters, category := some s.category,
    summary := some s.summary, characters := some s.characters,
    complete := some s.complete, genre := some s.genre,
    published := some s.published, updated := some s.updated }

/-- One iteration of the tag loop in `_handle_tags_for`: look the tag up by
name (`first()`), create it if absent (with `date_added` defaulted to the
current time), then link the story to it unless already linked. -/
def tag_step (soSid : Nat) (now : Int) (db : DB) (t : String) : DB :=
  match db.tags.find? (fun tg => tg.name == t) with
  | some tg =>
    if db.story_tags.contains (soSid, tg.tid) then db
    else { db with story_tags := db.story_tags ++ [(soSid, tg.tid)] }
  | none =>
    { db with
      tags := db.tags ++ [⟨db.next_id, t, now⟩],
      story_tags := db.story_tags ++ [(soSid, db.next_id)],
      next_id := db.next_id + 1 }

/-- Embedding of `DBMirror._handle_tags_for`: resolve the story once by
`(site, id)`, then run the tag loop over the metadata's tag set.  The source
requires the story to exist (docstring); if it does not, the model leaves the
database unchanged. -/
def handle_tags_for (db : DB) (md : StoryInfo) (now : Int) : DB :=
  match get_story db md.site md.id with
  | none => db
  | some so => md.tags.foldl (tag_step so.sid now) db

/-- Resolution stage of `_story_from_md`: the caller-supplied row if any,
else the `get_story` lookup (`so = eso if eso else self.get_story(...)`). -/
def sfm_resolve (db : DB) (s : StoryInfo) (eso : Option Nat) : Option Nat :=
  match eso with
  | some e => some e
  | none => (get_story db s.site s.id).map (fun r => r.sid)

/-- Creation stage of `_story_from_md`: when no row was resolved, a fresh
`Story(archive=..., site_id=...)` row is added to the session. -/
def sfm_create (db : DB) (s : StoryInfo) (found : Option Nat) : DB × Nat :=
  match found with
  | some sid => (db, sid)
  | none =>
    ({ db with
       stories := db.stories ++ [StoryRow.new db.next_id s.site s.id],
       next_id := db.next_id + 1 }, db.next_id)

/-- The body of `_story_from_md`'s update branch: overwrite the descriptive
fields, reattach tags, and set the story's author. -/
def sfm_upd_path (db1 : DB) (sid : Nat) (s : StoryInfo) (aoAid : Nat)
    (now : Int) : DB :=
  updStory (handle_tags_for (updStory db1 sid (applyMd s)) s now) sid
    (fun r => { r with author_id := some aoAid })

/-- Update stage of `_story_from_md`: when `_check_update` holds, run the
update branch. -/
def sfm_update (db1 : DB) (sid : Nat) (s : StoryInfo) (aoAid : Nat)
    (now : Int) : DB :=
  match findStory db1 sid with
  | none => db1
  | some so =>
    if check_update so s then sfm_upd_path db1 sid s aoAid now
    else db1

/-- Embedding of `DBMirror._story_from_md`, as the composition of its
resolution, creation and conditional-update stages.  `eso` is the primary key
of the caller-supplied existing row (from the `si_d` index), `aoAid` the
author to assign on update.  Returns the session state and the resolved
story's primary key. -/
def story_from_md (db : DB) (s : StoryInfo) (aoAid : Nat) (eso : Option Nat)
    (now : Int) : DB × Nat :=
  let created := sfm_create db s (sfm_resolve db s eso)
  (sfm_update created.1 created.2 s aoAid now, created.2)

/-- The exception that escapes `sync_author`: either the adapter's original
exception re-raised, or the `AttributeError` raised by evaluating `ao.name`
when `ao` is `None` in the error-reporting branch. -/
inductive SyncExc where
  | adapterExc (msg : String)
  | attributeError
  deriving Repr, DecidableEq

/-- Reference to the author being synced: an existing `Author` row object or
an `(archive, site-id)` pair. -/
def SyncRef := AuthorRow ⊕ (String × String)

/-- The archive key a sync reference denotes. -/
def ref_archive : SyncRef → String
  | .inl ao => ao.archive
  | .inr p => p.1

/-- The site-local author id a sync reference denotes. -/
def ref_aid : SyncRef → String
  | .inl ao => ao.site_id
  | .inr p => p.2

/-- The author row object `sync_author` starts from (`None` when an unknown
`(archive, id)` pair is given). -/
def ref_author (db : DB) : SyncRef → Option AuthorRow
  | .inl ao => some ao
  | .inr p => get_author db p.1 p.2

/-- Favourite-entry author resolution (`fav = ms.author if ms else
self.get_author(archive, sm.author.id)`): the author already linked to the
known local row when the `si_d` index has one, else a store lookup by the
favourite entry's author id. -/
def fav_resolve_author (db : DB) (archive : String)
    (si_d : String → Option Nat) (sm : StoryInfo) : Option Nat :=
  match si_d sm.id with
  | some msSid => (findStory db msSid).bind (fun r => r.author_id)
  | none => (get_author db archive sm.author.id).map (fun a => a.aid)

/-- Stub-author creation for an unresolved favourite owner. -/
def fav_author_stub (db : DB) (archive : String) (sm : StoryInfo)
    (fao : Option Nat) : DB × Nat :=
  match fao with
  | some a => (db, a)
  | none =>
    ({ db with
       authors := db.authors ++
         [{ aid := db.next_id, name := sm.author.name, archive := archive,
            site_id := sm.author.id, md_synced := none, sync_int := none,
            in_mirror := false }],
       next_id := db.next_id + 1 }, db.next_id)

/-- Idempotent favourite-link insertion (`if so not in ao.fav_stories`). -/
def fav_link (db : DB) (aoAid soSid : Nat) : DB :=
  if db.fav_stories.contains (aoAid, soSid) then db
  else { db with fav_stories := db.fav_stories ++ [(aoAid, soSid)] }

/-- One iteration of the favourites loop in `sync_author`: resolve the owning
author (preferring the author already linked to a known local row, else a
lookup-or-stub by the favourite entry's author id), reconcile the story, then
idempotently add it to the syncing author's favourites. -/
def fav_step (archive : String) (aoAid : Nat) (si_d : String → Option Nat)
    (now : Int) (db : DB) (sm : StoryInfo) : DB :=
  let resolved := fav_author_stub db archive sm (fav_resolve_author db archive si_d sm)
  let r := story_from_md resolved.1 sm resolved.2 (si_d sm.id) now
  fav_link r.1 aoAid r.2

/-- Author-row acquisition in `sync_author`: create the author with a one-day
resync interval when unknown, else reload the given row by primary key
(`cache_load_author`); a vanished row makes the subsequent attribute
assignment raise, which `none` encodes. -/
def sync_acquire_author (db : DB) (archive aid : String) (info : AuthorInfo)
    (ao : Option AuthorRow) : Option (DB × Nat) :=
  match ao with
  | none =>
    some ({ db with
            authors := db.authors ++
              [{ aid := db.next_id, name := info.name, archive := archive,
                 site_id := aid, md_synced := none, sync_int := some 86400,
                 in_mirror := false }],
            next_id := db.next_id + 1 }, db.next_id)
  | some a =>
    match findAuthor db a.aid with
    | some _ => some (db, a.aid)
    | none => none

/-- The reconciliation body of `sync_author`: stamp `md_synced`, build the
`si_d` index, then fold the authored and favourited entry loops. -/
def sync_reconcile (db : DB) (archive : String) (aoAid : Nat)
    (lr : ListResult) (now : Int) : DB :=
  let db1 := updAuthor db aoAid (fun a => { a with md_synced := some now })
  let si_d := build_si_d db1 aoAid
  let db2 := lr.auth.foldl
    (fun db sm => (story_from_md db sm aoAid (si_d sm.id) now).1) db1
  lr.fav.foldl (fav_step archive aoAid si_d now) db2

/-- Embedding of `DBMirror.sync_author`.  `hasProgress` records whether a
progress sink was supplied; emitted events are returned in order.  An `.ok`
database is the state committed by the final `ds.commit()`; an `.error`
result is a raised exception (nothing committed). -/
def sync_author (ad : Adapter) (db : DB) (ido : SyncRef) (now : Int)
    (hasProgress : Bool) : List JobStatus × Except SyncExc DB :=
  let archive := ref_archive ido
  let aid := ref_aid ido
  let ao := ref_author db ido
  match ad.download_list archive aid with
  | .error e =>
    -- the except branch: build the error event from `ao.name`; when `ao` is
    -- None this raises AttributeError before the event is delivered
    if hasProgress then
      match ao with
      | some a => ([⟨"error", some a.name, none, none, some e⟩],
                   .error (.adapterExc e))
      | none => ([], .error .attributeError)
    else ([], .error (.adapterExc e))
  | .ok lr =>
    match sync_acquire_author db archive aid lr.info ao with
    | none => ([], .error .attributeError)
    | some (db1, aoAid) =>
      ([], .ok (sync_reconcile db1 archive aoAid lr now))

/-! ## Archive engine (`DBMirror._set_chapters`, `story_to_archive`,
`archive_author`) -/

/-- Embedding of `DBMirror._set_chapters`: positions already holding a
`Chapter` row get their title updated in place; positions beyond the previous
count get a fresh row appended with `num` equal to the toc index.  `n` is the
current toc index. -/
def set_chapters : List ChapterRow → Nat → List ChapterInfo → List ChapterRow
  | cs, _, [] => cs
  | [], n, t :: ts => ⟨t.title, n⟩ :: set_chapters [] (n + 1) ts
  | c :: cs, n, t :: ts => { c with title := t.title } :: set_chapters cs (n + 1) ts

/-- Decimal digit character. -/
def digitChar (n : Nat) : Char :=
  match n with
  | 0 => '0' | 1 => '1' | 2 => '2' | 3 => '3' | 4 => '4'
  | 5 => '5' | 6 => '6' | 7 => '7' | 8 => '8' | 9 => '9'
  | _ => '?'

/-- Decimal digits of `n`, fuel-driven so the definition reduces in the
kernel. -/
def decDigits : Nat → Nat → List Char
  | 0, _ => []
  | _ + 1, n => if n < 10 then [digitChar n] else
      decDigits n (n / 10) ++ [digitChar (n % 10)]

/-- Decimal rendering of a natural number. -/
def natToDec (n : Nat) : String := ⟨decDigits (n + 1) n⟩

/-- Embedding of the Python format `f"{n:04d}"`: zero-pad to width 4. -/
def pad4 (n : Nat) : String :=
  let s := natToDec n
  (⟨List.replicate (4 - s.length) '0'⟩ : String) ++ s

/-- Modelled from the spec: `StoryInfo.get_mirror_filename` is called by
`story_to_archive` but its definition is not among the sources under review
(only call sites and the inverse `get_archive_id` are).  Spec §4.2/§6 require
a deterministic mirror-relative story directory name derived from the stable
identifiers archive+site-id (not the title), and `get_archive_id` parses the
trailing `-{archive}-{id}` segments back out; we model the name as the
archive key and site id joined by a hyphen. -/
def get_mirror_filename (md : StoryInfo) : String :=
  md.site ++ "-" ++ md.id

/-- One file written below the mirror root: directory, file name, content. -/
structure FileWrite where
  dir : String
  name : String
  content : String
  deriving Repr, DecidableEq

/-- The chapter loop of `story_to_archive`: per chapter, a progress event,
then the chapter download (whose failure aborts the loop, leaving the files
already written), then the file write `{n:04d}.html`.  `tot` is the stored
`st.chapters` column, which the source passes as the progress total. -/
def chapter_loop (ad : Adapter) (hasProgress : Bool) (tot : Option Int)
    (rfn : String) : Nat → List ChapterInfo →
    List JobStatus × List FileWrite × Option String
  | _, [] => ([], [], none)
  | n, c :: cs =>
    let evs := if hasProgress then
      [⟨"chapter", some c.title, some (n : Int), tot, none⟩] else []
    match ad.download_chapter c with
    | .error e => (evs, [], some e)
    | .ok txt =>
      let r := chapter_loop ad hasProgress tot rfn (n + 1) cs
      (evs ++ r.1, ⟨rfn, pad4 n ++ ".html", txt⟩ :: r.2.1, r.2.2)

/-- Embedding of `DBMirror.story_to_archive` (with `commit=True`): fetch fresh
metadata and toc, compute the story directory, reconcile chapter rows, fetch
and write each chapter file, then stamp `download_fn`/`download_time`.  An
`.error` result is a raised exception: the files written so far remain on
disk, the session is not committed.  (The source additionally leaves the
uncommitted chapter-row edits in the session in that case; the claims below
concern only the success path.) -/
def story_to_archive (ad : Adapter) (db : DB) (stSid : Nat) (now : Int)
    (hasProgress : Bool) : List JobStatus × List FileWrite × Except String DB :=
  match findStory db stSid with
  | none => ([], [], .error "no such story row")
  | some st =>
    match ad.download_metadata st.archive st.site_id with
    | .error e => ([], [], .error e)
    | .ok (md, toc) =>
      let rfn := get_mirror_filename md
      let db1 := updStory db stSid
        (fun r => { r with all_chapters := set_chapters r.all_chapters 0 toc })
      let r := chapter_loop ad hasProgress st.chapters rfn 0 toc
      match r.2.2 with
      | some e => (r.1, r.2.1, .error e)
      | none =>
        (r.1, r.2.1, .ok (updStory db1 stSid
          (fun s => { s with download_fn := some rfn, download_time := some now })))

/-- The SQL filter of `archive_author`'s query:
`download_time IS NULL OR download_time < updated` (a comparison against a
NULL `updated` is not satisfied). -/
def needs_archive_sql (so : StoryRow) : Bool :=
  match so.download_time with
  | none => true
  | some d =>
    match so.updated with
    | some u => decide (d < u)
    | none => false

/-- The story selection of `archive_author`: this author's stories that still
need (re)archiving. -/
def archive_select (db : DB) (aoAid : Nat) : List StoryRow :=
  db.stories.filter (fun so => so.author_id == some aoAid && needs_archive_sql so)

/-- One iteration of `archive_author`'s loop: the story progress event, the
archive attempt, and on failure the caught-and-reported error event (named by
the exception's type, carrying the trace). -/
def archive_step (ad : Adapter) (now : Int) (hasProgress : Bool) (count : Nat)
    (db : DB) (n : Nat) (st : StoryRow) : List JobStatus × List FileWrite × DB :=
  let evs := if hasProgress then
    [⟨"story", st.title, some (n : Int), some (count : Int), none⟩] else []
  let r := story_to_archive ad db st.sid now hasProgress
  match r.2.2 with
  | .ok db' => (evs ++ r.1, r.2.1, db')
  | .error e =>
    (evs ++ r.1 ++ (if hasProgress then
        [⟨"error", some "Exception", none, none, some e⟩] else []),
     r.2.1, db)

/-- The loop of `archive_author` over the materialised query result. -/
def archive_loop (ad : Adapter) (now : Int) (hasProgress : Bool) (count : Nat) :
    Nat → List StoryRow → DB → List JobStatus × List FileWrite × DB
  | _, [], db => ([], [], db)
  | n, st :: rest, db =>
    let r := archive_step ad now hasProgress count db n st
    let r' := archive_loop ad now hasProgress count (n + 1) rest r.2.2
    (r.1 ++ r'.1, r.2.1 ++ r'.2.1, r'.2.2)

/-- Embedding of `DBMirror.archive_author`: set `in_mirror = True`
unconditionally, select the stories needing archiving, and archive each with
per-story failure isolation. -/
def archive_author (ad : Adapter) (db : DB) (aoAid : Nat) (now : Int)
    (hasProgress : Bool) : List JobStatus × List FileWrite × DB :=
  let db1 := updAuthor db aoAid (fun a => { a with in_mirror := true })
  let q := archive_select db1 aoAid
  archive_loop ad now hasProgress q.length 0 q db1

/-! ## Update scheduler (`DBMirror.run_update`) -/

/-- The scheduler's ordering key: ascending `md_synced` with NULLs first
(sqlite `ORDER BY md_synced ASC`). -/
def md_le (a b : Option Int) : Prop :=
  match a, b with
  | none, _ => True
  | some _, none => False
  | some x, some y => x ≤ y

instance : DecidableRel md_le := fun a b =>
  match a, b with
  | none, _ => isTrue trivial
  | some _, none => isFalse (fun h => h)
  | some x, some y => inferInstanceAs (Decidable (x ≤ y))

/-- Ordering of author rows by staleness. -/
def author_le (a b : AuthorRow) : Prop := md_le a.md_synced b.md_synced

instance : DecidableRel author_le := fun a b =>
  inferInstanceAs (Decidable (md_le a.md_synced b.md_synced))

/-- The scheduler's author selection:
`query(Author).filter(in_mirror == True).order_by(md_synced.asc())`, embedded
as a stable sort of the filtered rows. -/
def select_update_authors (db : DB) : List AuthorRow :=
  List.insertionSort author_le (db.authors.filter (fun a => a.in_mirror))

/-- The authors the scheduler's loop actually visits: the selection, truncated
at `max_authors` by the `break`. -/
def run_update_processed (db : DB) (max_authors : Option Nat) : List AuthorRow :=
  match max_authors with
  | some m => (select_update_authors db).take m
  | none => select_update_authors db

/-- The scheduler loop: per author an author progress event, then sync and
archive under a catch-all (`except Exception: pass`) so one author's failure
never stops the run. -/
def run_update_loop (ad : Adapter) (now : Int) (hasProgress : Bool) (tot : Int) :
    Nat → List AuthorRow → DB → List JobStatus × List FileWrite × DB
  | _, [], db => ([], [], db)
  | n, i :: rest, db =>
    let evs := if hasProgress then
      [⟨"author", some i.name, some ((n : Int) + 1), some tot, none⟩] else []
    let s := sync_author ad db (.inl i) now hasProgress
    match s.2 with
    | .error _ =>
      let r := run_update_loop ad now hasProgress tot (n + 1) rest db
      (evs ++ s.1 ++ r.1, r.2.1, r.2.2)
    | .ok db1 =>
      let a := archive_author ad db1 i.aid now hasProgress
      let r := run_update_loop ad now hasProgress tot (n + 1) rest a.2.2
      (evs ++ s.1 ++ a.1 ++ r.1, a.2.1 ++ r.2.1, r.2.2)

/-- The progress total the scheduler reports: `max_authors` when given, else
the selection size. -/
def run_update_total (db : DB) (max_authors : Option Nat) : Int :=
  match max_authors with
  | some m => (m : Int)
  | none => ((select_update_authors db).length : Int)

/-- Embedding of `DBMirror.run_update`: select the in-mirror authors ordered
by staleness, cap at `max_authors`, and process each in order. -/
def run_update (ad : Adapter) (db : DB) (now : Int) (hasProgress : Bool)
    (max_authors : Option Nat) : List JobStatus × List FileWrite × DB :=
  run_update_loop ad now hasProgress (run_update_total db max_authors) 0
    (run_update_processed db max_authors) db

/-! ## Invariants and auxiliary predicates used by the theorems -/

/-- The story `soSid` is linked (via `story_tags`) to the tag a name lookup
for `t` resolves to (`first()` in `_handle_tags_for`). -/
def tagLinked (db : DB) (soSid : Nat) (t : String) : Prop :=
  ∃ tg, db.tags.find? (fun x => x.name == t) = some tg ∧
    (soSid, tg.tid) ∈ db.story_tags

/-- Well-formedness of the session state: the invariants the schema and
normal operation maintain.  Unique primary keys below the fresh-key counter,
unique `(archive, site_id)` natural keys, every story owned by an existing
author of the same archive, and favourite links joining existing rows of the
same archive. -/
def WFdb (db : DB) : Prop :=
  (db.stories.map (fun s => (s.archive, s.site_id))).Nodup ∧
  (db.stories.map (fun s => s.sid)).Nodup ∧
  (∀ s ∈ db.stories, s.sid < db.next_id) ∧
  (db.authors.map (fun a => (a.archive, a.site_id))).Nodup ∧
  (db.authors.map (fun a => a.aid)).Nodup ∧
  (∀ a ∈ db.authors, a.aid < db.next_id) ∧
  (∀ s ∈ db.stories, ∃ a ∈ db.authors, s.author_id = some a.aid ∧
    s.archive = a.archive) ∧
  (∀ p ∈ db.fav_stories, ∃ a ∈ db.authors, ∃ s ∈ db.stories,
    p = (a.aid, s.sid) ∧ s.archive = a.archive)

/-- Sanity of one author's adapter listing: every entry carries the archive's
own site key, and two entries with the same story id agree (one remote story
page renders one way within one listing). -/
def DataOk (archive : String) (lr : ListResult) : Prop :=
  (∀ sm ∈ lr.auth ++ lr.fav, sm.site = archive) ∧
  (∀ sm ∈ lr.auth ++ lr.fav, ∀ sm' ∈ lr.auth ++ lr.fav, sm.id = sm'.id → sm = sm')

/-- A sync reference given as a row object must be a live row of the state it
is used against. -/
def RefOk (db : DB) : SyncRef → Prop
  | .inl ao => ao ∈ db.authors
  | .inr _ => True

/-- Primary key of the author a reference resolves to against a state. -/
def resolved_aid (db : DB) (ido : SyncRef) : Option Nat :=
  (ref_author db ido).map (fun a => a.aid)

/-- There is an author row with primary key `aoAid` and natural key
`(archive, aid)`. -/
def AuthorAt (db : DB) (archive aid : String) (aoAid : Nat) : Prop :=
  ∃ a ∈ db.authors, a.aid = aoAid ∧ a.archive = archive ∧ a.site_id = aid

/-- Soundness of a (frozen) `si_d` index against a session state: every hit
is a live row of that author's archive carrying the looked-up site id. -/
def SiDOk (si_d : String → Option Nat) (archive : String) (db : DB) : Prop :=
  ∀ k s, si_d k = some s →
    ∃ r ∈ db.stories, r.sid = s ∧ r.site_id = k ∧ r.archive = archive

/-- What one complete `sync_author` run establishes for its listing: every
authored and favourited entry has a live row under its `(archive, id)` key
whose change-detection signal is clear, and every favourited entry's row is
linked into the syncing author's favourites. -/
def SyncEstab (db : DB) (archive : String) (aoAid : Nat) (lr : ListResult) :
    Prop :=
  (∀ sm ∈ lr.auth, ∃ r ∈ db.stories,
    r.archive = archive ∧ r.site_id = sm.id ∧ check_update r sm = false) ∧
  (∀ sm ∈ lr.fav, ∃ r ∈ db.stories,
    r.archive = archive ∧ r.site_id = sm.id ∧ check_update r sm = false ∧
      (aoAid, r.sid) ∈ db.fav_stories)

/-- A single listing entry is reconciled: a live row holds its key with the
change-detection signal clear. -/
def Estab1 (archive : String) (db : DB) (sm : StoryInfo) : Prop :=
  ∃ r ∈ db.stories, r.archive = archive ∧ r.site_id = sm.id ∧
    check_update r sm = false

/-- A single favourited entry is reconciled and linked into author `aoAid`'s
favourites. -/
def Estab2 (archive : String) (aoAid : Nat) (db : DB) (sm : StoryInfo) :
    Prop :=
  ∃ r ∈ db.stories, r.archive = archive ∧ r.site_id = sm.id ∧
    check_update r sm = false ∧ (aoAid, r.sid) ∈ db.fav_stories

/-- The story-level conclusions common to one authored-loop step and one
favourites-loop step: the entry's key row is freshly reconciled, rows under
other keys survive, rows that held the key kept their primary key, and
favourite links are never dropped. -/
def StepFacts (archive : String) (db db' : DB) (sm' : StoryInfo) (sid : Nat) :
    Prop :=
  (∃ r ∈ db'.stories, r.sid = sid ∧ r.archive = archive ∧
    r.site_id = sm'.id ∧ check_update r sm' = false) ∧
  (∀ r ∈ db.stories, ¬(r.archive = archive ∧ r.site_id = sm'.id) →
    r ∈ db'.stories) ∧
  (∀ r1 ∈ db.stories, r1.archive = archive → r1.site_id = sm'.id →
    r1.sid = sid) ∧
  (∀ pr ∈ db.fav_stories, pr ∈ db'.fav_stories)

/-- Frame property of story-level mutations: the author table is untouched
and the fresh-key counter never decreases. -/
def StFrame (db db' : DB) : Prop :=
  db'.authors = db.authors ∧ db.next_id ≤ db'.next_id

/-- Frame property of one scheduler iteration targeting author `t`: the
fresh-key counter never decreases, and every other live author row with an
in-range primary key survives unchanged. -/
def AuthFrame (t : Nat) (db db' : DB) : Prop :=
  db.next_id ≤ db'.next_id ∧
  ∀ a : AuthorRow, a ∈ db.authors → a.aid ≠ t → a.aid < db.next_id →
    a ∈ db'.authors

/-! ## Concrete fixtures used by witnesses and counterexamples -/

/-- A small concrete author-info fixture. -/
def exAuthorInfo : AuthorInfo := ⟨"ann", "a1"⟩

/-- A small concrete story summary.  Its summary text differs from the stored
row `exStoryRow` while words/chapters/updated agree. -/
def exStoryInfo : StoryInfo :=
  { title := "t", summary := "s", category := "c", id := "s1", chapters := 2,
    words := 100, characters := "x", author := exAuthorInfo, genre := "g",
    site := "ff", updated := 50, published := 10, complete := false,
    tags := ["c"] }

/-- A stored author row fixture. -/
def exAuthorRow : AuthorRow :=
  { aid := 0, name := "ann", archive := "ff", site_id := "a1",
    md_synced := none, sync_int := some 86400, in_mirror := true }

/-- A stored story row fixture matching `exStoryInfo` in words, chapters and
updated-timestamp, but not in summary text. -/
def exStoryRow : StoryRow :=
  { sid := 1, title := some "t", archive := "ff", site_id := "s1",
    words := some 100, chapters := some 2, published := some 10,
    updated := some 50, category := some "c", summary := some "OLD",
    characters := some "x", complete := some false, genre := some "g",
    download_time := none, download_fn := none, author_id := some 0,
    all_chapters := [] }

/-- A stored state holding the two fixture rows. -/
def exDb : DB :=
  { authors := [exAuthorRow], stories := [exStoryRow], tags := [],
    story_tags := [], fav_stories := [], next_id := 2 }

/-- A second story summary with a different site id on the same archive. -/
def exStoryInfoB : StoryInfo :=
  { exStoryInfo with id := "s2", title := "u" }

/-- A synthetic adapter serving the fixture story with a two-entry toc. -/
def exAdapter : Adapter :=
  { download_list := fun _ _ => .ok ⟨[exStoryInfo], [], exAuthorInfo⟩,
    download_metadata := fun _ _ => .ok (exStoryInfo, [⟨"c1"⟩, ⟨"c2"⟩]),
    download_chapter := fun c => .ok ("body of " ++ c.title) }

/-- The fixture archive run of the stored story. -/
def exArchRun : List JobStatus × List FileWrite × Except String DB :=
  story_to_archive exAdapter exDb 1 100 true

/-- The state committed by the fixture archive run. -/
def exArchDb : DB :=
  match exArchRun.2.2 with
  | .ok d => d
  | .error _ => exDb

/-- The author-level progress events a scheduler visit of the given rows must
emit, in order: one `author` event per visited row with a one-based index and
the run's total. -/
def author_events (tot : Int) : Nat → List AuthorRow → List JobStatus
  | _, [] => []
  | n, i :: rest =>
    ⟨"author", some i.name, some ((n : Int) + 1), some tot, none⟩ ::
      author_events tot (n + 1) rest

/-- Failure-isolation fixture: three in-mirror authors. -/
def exScen3A1 : AuthorRow :=
  { aid := 1, name := "A1", archive := "ff", site_id := "a1",
    md_synced := some 1, sync_int := some 86400, in_mirror := true }

/-- Second fixture author; the fixture adapter fails on this author's id. -/
def exScen3A2 : AuthorRow :=
  { aid := 2, name := "A2", archive := "ff", site_id := "a2",
    md_synced := some 2, sync_int := some 86400, in_mirror := true }

/-- Third fixture author, visited after the failing one. -/
def exScen3A3 : AuthorRow :=
  { aid := 3, name := "A3", archive := "ff", site_id := "a3",
    md_synced := some 3, sync_int := some 86400, in_mirror := true }

/-- Failure-isolation fixture state. -/
def exScen3Db : DB :=
  { authors := [exScen3A1, exScen3A2, exScen3A3], stories := [], tags := [],
    story_tags := [], fav_stories := [], next_id := 4 }

/-- A fixture adapter whose `download_list` raises for author id `a2` only. -/
def exScen3Ad : Adapter :=
  { download_list := fun _ aid =>
      if aid == "a2" then .error "boom" else .ok ⟨[], [], ⟨"x", aid⟩⟩,
    download_metadata := fun _ _ => .error "unused",
    download_chapter := fun _ => .error "unused" }

/-- The failure-isolation fixture run. -/
def exScen3Run : List JobStatus × List FileWrite × DB :=
  run_update exScen3Ad exScen3Db 10 true none

/-- The empty store. -/
def exEmptyDb : DB :=
  { authors := [], stories := [], tags := [], story_tags := [],
    fav_stories := [], next_id := 0 }

/-- State committed by a first fixture sync of the unknown author `a1` from
the empty store at time 0. -/
def exSyncDb1 : DB :=
  match (sync_author exAdapter exEmptyDb (.inr ("ff", "a1")) 0 true).2 with
  | .ok d => d
  | .error _ => exEmptyDb

/-- State committed by a second, identical fixture sync at time 5. -/
def exSyncDb2 : DB :=
  match (sync_author exAdapter exSyncDb1 (.inr ("ff", "a1")) 5 true).2 with
  | .ok d => d
  | .error _ => exEmptyDb

/-- An adapter whose fetches always raise. -/
def exFailAd : Adapter :=
  { download_list := fun _ _ => .error "netfail",
    download_metadata := fun _ _ => .error "netfail",
    download_chapter := fun _ => .error "netfail" }

/-- Scheduler fixture: a stale in-mirror author. -/
def exSchedA1 : AuthorRow :=
  { aid := 1, name := "A1", archive := "ff", site_id := "a1",
    md_synced := some 5, sync_int := some 86400, in_mirror := true }

/-- Scheduler fixture: a never-synced in-mirror author. -/
def exSchedA2 : AuthorRow :=
  { aid := 2, name := "A2", archive := "ff", site_id := "a2",
    md_synced := none, sync_int := some 86400, in_mirror := true }

/-- Scheduler fixture: an author not enrolled in the mirror. -/
def exSchedA3 : AuthorRow :=
  { aid := 3, name := "A3", archive := "ff", site_id := "a3",
    md_synced := some 1, sync_int := some 86400, in_mirror := false }

/-- Scheduler fixture state with three authors and no stories. -/
def exSchedDb : DB :=
  { authors := [exSchedA1, exSchedA2, exSchedA3], stories := [], tags := [],
    story_tags := [], fav_stories := [], next_id := 4 }

/-! ## Theorems -/

/-! ### Generic lemmas about the list primitives of the embedding -/

theorem mem_setInsert {l : List String} {x a : String} :
    a ∈ setInsert l x ↔ a ∈ l ∨ a = x := by
  unfold setInsert
  split
  · rename_i h
    constructor
    · exact Or.inl
    · rintro (h' | rfl)
      · exact h'
      · exact h
  · simp [List.mem_append]

theorem mem_foldl_setInsert (g : String → String) :
    ∀ (l rv : List String) (a : String),
      a ∈ l.foldl (fun rv i => setInsert rv (g i)) rv ↔
        a ∈ rv ∨ ∃ i ∈ l, a = g i
  | [], rv, a => by simp
  | x :: l, rv, a => by
    simp only [List.foldl_cons]
    rw [mem_foldl_setInsert g l]
    simp only [mem_setInsert, List.mem_cons]
    constructor
    · rintro (⟨h | h⟩ | ⟨i, hi, rfl⟩)
      · exact Or.inl h
      · exact Or.inr ⟨x, Or.inl rfl, h⟩
      · exact Or.inr ⟨i, Or.inr hi, rfl⟩
    · rintro (h | ⟨i, hi | hi, rfl⟩)
      · exact Or.inl (Or.inl h)
      · subst hi; exact Or.inl (Or.inr rfl)
      · exact Or.inr ⟨i, hi, rfl⟩

theorem contains_pair_iff {l : List (Nat × Nat)} {p : Nat × Nat} :
    l.contains p = true ↔ p ∈ l := by
  simp [List.contains_iff_exists_mem_beq, beq_iff_eq]

/-! ### Tag-handling lemmas (for the sync engine and for claim C7) -/

theorem tag_step_of_linked {db : DB} {soSid : Nat} {t : String} (now : Int)
    (h : tagLinked db soSid t) : tag_step soSid now db t = db := by
  obtain ⟨tg, hf, hm⟩ := h
  have hc : db.story_tags.contains (soSid, tg.tid) = true :=
    contains_pair_iff.mpr hm
  unfold tag_step
  rw [hf]
  simp only [hc, if_true]

theorem tag_step_stories (soSid : Nat) (now : Int) (db : DB) (t : String) :
    (tag_step soSid now db t).stories = db.stories := by
  unfold tag_step
  rcases h : db.tags.find? (fun x => x.name == t) with _ | tg
  · rw [h]
  · rw [h]
    dsimp only
    split <;> rfl

theorem tag_step_preserves_linked {db : DB} {soSid : Nat} {t' : String}
    (h : tagLinked db soSid t') (t : String) (now : Int) :
    tagLinked (tag_step soSid now db t) soSid t' := by
  obtain ⟨tg, hf, hm⟩ := h
  unfold tag_step
  rcases hft : db.tags.find? (fun x => x.name == t) with _ | tg2
  · rw [hft]
    exact ⟨tg, by rw [List.find?_append, hf]; rfl, List.mem_append_left _ hm⟩
  · rw [hft]
    dsimp only
    split
    · exact ⟨tg, hf, hm⟩
    · exact ⟨tg, hf, List.mem_append_left _ hm⟩

theorem tag_step_linked_self (db : DB) (soSid : Nat) (t : String) (now : Int) :
    tagLinked (tag_step soSid now db t) soSid t := by
  unfold tag_step
  rcases hft : db.tags.find? (fun x => x.name == t) with _ | tg
  · rw [hft]
    refine ⟨⟨db.next_id, t, now⟩, ?_, ?_⟩
    · rw [List.find?_append, hft]
      simp [List.find?_cons]
    · exact List.mem_append_right _ (by simp)
  · rw [hft]
    dsimp only
    split
    · rename_i hc
      exact ⟨tg, hft, contains_pair_iff.mp hc⟩
    · exact ⟨tg, hft, List.mem_append_right _ (by simp)⟩

theorem foldl_tag_step_preserves {soSid : Nat} {now : Int} {t' : String} :
    ∀ (l : List String) (db : DB), tagLinked db soSid t' →
      tagLinked (l.foldl (tag_step soSid now) db) soSid t'
  | [], db, h => h
  | t :: l, db, h =>
    foldl_tag_step_preserves l _ (tag_step_preserves_linked h t now)

theorem foldl_tag_step_establishes {soSid : Nat} {now : Int} :
    ∀ (l : List String) (db : DB) (t : String), t ∈ l →
      tagLinked (l.foldl (tag_step soSid now) db) soSid t
  | t' :: l, db, t, ht => by
    rcases List.mem_cons.mp ht with rfl | ht
    · exact foldl_tag_step_preserves l _ (tag_step_linked_self db soSid t now)
    · exact foldl_tag_step_establishes l _ t ht

theorem foldl_tag_step_of_all_linked {soSid : Nat} {now : Int} :
    ∀ (l : List String) (db : DB), (∀ t ∈ l, tagLinked db soSid t) →
      l.foldl (tag_step soSid now) db = db
  | [], _, _ => rfl
  | t :: l, db, h => by
    have h1 : tag_step soSid now db t = db :=
      tag_step_of_linked now (h t (List.mem_cons_self t l))
    simp only [List.foldl_cons, h1]
    exact foldl_tag_step_of_all_linked l db (fun t' ht' => h t' (List.mem_cons_of_mem _ ht'))

theorem foldl_tag_step_stories {soSid : Nat} {now : Int} :
    ∀ (l : List String) (db : DB),
      (l.foldl (tag_step soSid now) db).stories = db.stories
  | [], _ => rfl
  | t :: l, db => by
    simp only [List.foldl_cons]
    rw [foldl_tag_step_stories l, tag_step_stories]

theorem get_story_congr {db db' : DB} (h : db.stories = db'.stories)
    (archive sid : String) : get_story db archive sid = get_story db' archive sid := by
  unfold get_story
  rw [h]

theorem handle_tags_for_eq_none {db : DB} {md : StoryInfo} (now : Int)
    (h : get_story db md.site md.id = none) :
    handle_tags_for db md now = db := by
  unfold handle_tags_for
  rw [h]

theorem handle_tags_for_eq_some {db : DB} {md : StoryInfo} {so : StoryRow}
    (now : Int) (h : get_story db md.site md.id = some so) :
    handle_tags_for db md now = md.tags.foldl (tag_step so.sid now) db := by
  unfold handle_tags_for
  rw [h]

theorem handle_tags_for_stories (db : DB) (md : StoryInfo) (now : Int) :
    (handle_tags_for db md now).stories = db.stories := by
  unfold handle_tags_for
  rcases h : get_story db md.site md.id with _ | so
  · rfl
  · exact foldl_tag_step_stories md.tags db

/-- C7: for every category string the derived tag set is exactly the set of
lowercased, comma-stripped segments of the string split on the literal
`" & "` (derivation is a pure function of the category string, hence
deterministic), and applying a metadata record's tag set to a story a second
time is a no-op: the database after the second `_handle_tags_for` equals the
database after the first, so no duplicate tags or links arise. -/
theorem cat_to_tagset_correct_and_idempotent :
    (∀ (c a : String),
      a ∈ cat_to_tagset c ↔ ∃ seg ∈ splitAmp c, a = removeCommas (pyLower seg)) ∧
    (∀ (db : DB) (md : StoryInfo) (now now' : Int),
      handle_tags_for (handle_tags_for db md now) md now' =
        handle_tags_for db md now) := by
  constructor
  · intro c a
    unfold cat_to_tagset
    rw [mem_foldl_setInsert (fun i => removeCommas (pyLower i))]
    simp
  · intro db md now now'
    rcases h : get_story db md.site md.id with _ | so
    · rw [handle_tags_for_eq_none now h, handle_tags_for_eq_none now' h]
    · have hs : (handle_tags_for db md now).stories = db.stories :=
        handle_tags_for_stories db md now
      have h2 : get_story (handle_tags_for db md now) md.site md.id = some so := by
        rw [get_story_congr hs md.site md.id, h]
      rw [handle_tags_for_eq_some now' h2, handle_tags_for_eq_some now h]
      exact foldl_tag_step_of_all_linked md.tags _
        (fun t ht => foldl_tag_step_establishes md.tags db t ht)

/-- C9: at the store boundary, a timezone-naive datetime is rejected with an
error and never stored; a timezone-aware datetime is stored converted to UTC
(offset zero, same instant); and a stored timestamp read back through the
result path is timezone-aware UTC denoting the instant originally bound. -/
theorem timestamp_store_boundary :
    (∀ d : PyDateTime, d.off = none →
      process_bind_param d = .error "TimeStamp only supports TZ-aware datetimes") ∧
    (∀ (d : PyDateTime) (o : Int), d.off = some o →
      process_bind_param d = .ok (astimezoneUtc d) ∧
      (astimezoneUtc d).off = some 0 ∧ (astimezoneUtc d).instant = d.instant) ∧
    (∀ (d : PyDateTime) (o : Int), d.off = some o →
      (process_result_value (sqliteStrip (astimezoneUtc d))).off = some 0 ∧
      (process_result_value (sqliteStrip (astimezoneUtc d))).instant = d.instant) := by
  refine ⟨?_, ?_, ?_⟩
  · intro d h
    unfold process_bind_param
    rw [h]
  · intro d o h
    refine ⟨?_, rfl, ?_⟩
    · unfold process_bind_param
      rw [h]
    · simp [astimezoneUtc, PyDateTime.instant, h]
  · intro d o h
    refine ⟨rfl, ?_⟩
    simp [process_result_value, sqliteStrip, astimezoneUtc, PyDateTime.instant, h]

/-- Witness for C9 at concrete datetimes: a naive reading 5 is rejected, an
aware reading 65 at offset 60 is stored as UTC instant 5 and read back aware
at offset zero. -/
theorem timestamp_store_boundary_witness :
    process_bind_param ⟨5, none⟩ =
      .error "TimeStamp only supports TZ-aware datetimes" ∧
    (process_bind_param ⟨65, some 60⟩ = .ok (astimezoneUtc ⟨65, some 60⟩) ∧
      (astimezoneUtc ⟨65, some 60⟩).off = some 0 ∧
      (astimezoneUtc ⟨65, some 60⟩).instant = PyDateTime.instant ⟨65, some 60⟩) ∧
    ((process_result_value (sqliteStrip (astimezoneUtc ⟨65, some 60⟩))).off = some 0 ∧
      (process_result_value (sqliteStrip (astimezoneUtc ⟨65, some 60⟩))).instant =
        PyDateTime.instant ⟨65, some 60⟩) :=
  ⟨timestamp_store_boundary.1 ⟨5, none⟩ rfl,
   timestamp_store_boundary.2.1 ⟨65, some 60⟩ 60 rfl,
   timestamp_store_boundary.2.2 ⟨65, some 60⟩ 60 rfl⟩

/-- C1: `_check_update` is true exactly when word count, chapter count or
updated-timestamp differ between the stored row and the incoming summary; and
when it is false, `_story_from_md` leaves the whole session state (in
particular every descriptive field of the row: title, summary, category,
characters, complete, genre, published, author) unchanged — so a difference
in summary text alone never triggers an update. -/
theorem check_update_sole_change_signal :
    (∀ (so : StoryRow) (s : StoryInfo),
      check_update so s = true ↔
        (so.words ≠ some s.words ∨ so.chapters ≠ some s.chapters ∨
          so.updated ≠ some s.updated)) ∧
    (∀ (db : DB) (s : StoryInfo) (aoAid sid : Nat) (so : StoryRow) (now : Int),
      findStory db sid = some so → check_update so s = false →
      story_from_md db s aoAid (some sid) now = (db, sid)) := by
  constructor
  · intro so s
    unfold check_update
    simp [Bool.or_eq_true, bne_iff_ne]
    tauto
  · intro db s aoAid sid so now hfind hcheck
    unfold story_from_md sfm_resolve sfm_create sfm_update
    dsimp only
    rw [hfind]
    dsimp only
    rw [hcheck]
    simp

/-! ### Archive-engine lemmas -/

theorem findStory_updStory (db : DB) (sid k : Nat) (f : StoryRow → StoryRow)
    (hf : ∀ r, (f r).sid = r.sid) :
    findStory (updStory db sid f) k =
      (findStory db k).map (fun r => if r.sid == sid then f r else r) := by
  unfold findStory updStory
  dsimp only
  rw [List.find?_map]
  have hp : ((fun r => r.sid == k) ∘ fun r => if (r.sid == sid) = true then f r else r) =
      (fun r : StoryRow => r.sid == k) := by
    funext r
    by_cases h : (r.sid == sid) = true <;> simp [Function.comp, h, hf]
  rw [hp]

theorem chapter_loop_cons_error {ad : Adapter} {c : ChapterInfo} {e : String}
    (p : Bool) (tot : Option Int) (rfn : String) (n : Nat) (cs : List ChapterInfo)
    (hdc : ad.download_chapter c = .error e) :
    chapter_loop ad p tot rfn n (c :: cs) =
      ((if p then [⟨"chapter", some c.title, some (n : Int), tot, none⟩] else []),
        [], some e) := by
  unfold chapter_loop
  rw [hdc]

theorem chapter_loop_cons_ok {ad : Adapter} {c : ChapterInfo} {txt : String}
    (p : Bool) (tot : Option Int) (rfn : String) (n : Nat) (cs : List ChapterInfo)
    (hdc : ad.download_chapter c = .ok txt) :
    chapter_loop ad p tot rfn n (c :: cs) =
      ((if p then [⟨"chapter", some c.title, some (n : Int), tot, none⟩] else []) ++
          (chapter_loop ad p tot rfn (n + 1) cs).1,
        ⟨rfn, pad4 n ++ ".html", txt⟩ :: (chapter_loop ad p tot rfn (n + 1) cs).2.1,
        (chapter_loop ad p tot rfn (n + 1) cs).2.2) := by
  conv_lhs => unfold chapter_loop
  rw [hdc]

theorem chapter_loop_ok_files (ad : Adapter) (p : Bool) (tot : Option Int)
    (rfn : String) :
    ∀ (toc : List ChapterInfo) (n : Nat),
      (chapter_loop ad p tot rfn n toc).2.2 = none →
      (chapter_loop ad p tot rfn n toc).2.1.map (fun w => (w.dir, w.name)) =
        (List.range toc.length).map (fun k => (rfn, pad4 (n + k) ++ ".html"))
  | [], _, _ => rfl
  | c :: cs, n, h => by
    rcases hdc : ad.download_chapter c with e | txt
    · rw [chapter_loop_cons_error p tot rfn n cs hdc] at h
      simp at h
    · rw [chapter_loop_cons_ok p tot rfn n cs hdc] at h ⊢
      dsimp only at h ⊢
      have ih := chapter_loop_ok_files ad p tot rfn cs (n + 1) h
      rw [List.map_cons, ih, List.length_cons, List.range_succ_eq_map,
        List.map_cons, List.map_map]
      refine congrArg₂ _ (by rw [Nat.add_zero]) ?_
      refine List.map_congr_left (fun k _ => ?_)
      simp only [Function.comp]
      rw [show n + 1 + k = n + Nat.succ k by omega]

theorem set_chapters_title :
    ∀ (toc : List ChapterInfo) (cs : List ChapterRow) (n k : Nat),
      k < toc.length →
      ((set_chapters cs n toc)[k]?).map (fun c => c.title) =
        (toc[k]?).map (fun c => c.title)
  | [], _, _, _, h => absurd h (by simp)
  | _ :: _, [], _, 0, _ => by simp [set_chapters]
  | t :: ts, [], n, k + 1, h => by
    simp only [set_chapters, List.getElem?_cons_succ]
    exact set_chapters_title ts [] (n + 1) k (by simpa using h)
  | _ :: _, _ :: _, _, 0, _ => by simp [set_chapters]
  | t :: ts, c :: cs, n, k + 1, h => by
    simp only [set_chapters, List.getElem?_cons_succ]
    exact set_chapters_title ts cs (n + 1) k (by simpa using h)

theorem story_to_archive_ok_elim {ad : Adapter} {db : DB} {sid : Nat}
    {now : Int} {p : Bool} {evs : List JobStatus} {fs : List FileWrite}
    {db' : DB} {st : StoryRow} {md : StoryInfo} {toc : List ChapterInfo}
    (hfind : findStory db sid = some st)
    (hmd : ad.download_metadata st.archive st.site_id = .ok (md, toc))
    (hrun : story_to_archive ad db sid now p = (evs, fs, .ok db')) :
    (chapter_loop ad p st.chapters (get_mirror_filename md) 0 toc).2.2 = none ∧
    evs = (chapter_loop ad p st.chapters (get_mirror_filename md) 0 toc).1 ∧
    fs = (chapter_loop ad p st.chapters (get_mirror_filename md) 0 toc).2.1 ∧
    db' = updStory (updStory db sid
        (fun r0 => { r0 with all_chapters := set_chapters r0.all_chapters 0 toc }))
      sid (fun s => { s with
        download_fn := some (get_mirror_filename md),
        download_time := some now }) := by
  unfold story_to_archive at hrun
  rw [hfind] at hrun
  dsimp only at hrun
  rw [hmd] at hrun
  dsimp only at hrun
  rcases herr : (chapter_loop ad p st.chapters (get_mirror_filename md) 0 toc).2.2
    with _ | e
  · rw [herr] at hrun
    dsimp only at hrun
    simp only [Prod.mk.injEq] at hrun
    obtain ⟨h1, h2, h3⟩ := hrun
    exact ⟨rfl, h1.symm, h2.symm, (Except.ok.inj h3).symm⟩
  · rw [herr] at hrun
    simp at hrun

theorem story_to_archive_ok_authors {ad : Adapter} {db : DB} {sid : Nat}
    {now : Int} {p : Bool} {db' : DB}
    (h : (story_to_archive ad db sid now p).2.2 = .ok db') :
    db'.authors = db.authors := by
  unfold story_to_archive at h
  rcases h1 : findStory db sid with _ | st
  · rw [h1] at h
    simp at h
  · rw [h1] at h
    dsimp only at h
    rcases h2 : ad.download_metadata st.archive st.site_id with e | ⟨md, toc⟩
    · rw [h2] at h
      simp at h
    · rw [h2] at h
      dsimp only at h
      rcases h3 : (chapter_loop ad p st.chapters (get_mirror_filename md) 0
          toc).2.2 with _ | e
      · rw [h3] at h
        dsimp only at h
        rw [← Except.ok.inj h]
        rfl
      · rw [h3] at h
        simp at h

theorem findStory_sid {db : DB} {sid : Nat} {st : StoryRow}
    (h : findStory db sid = some st) : (st.sid == sid) = true := by
  unfold findStory at h
  have h2 := List.find?_some h
  exact h2

theorem findStory_updStory_self {db : DB} {sid : Nat} {st : StoryRow}
    (f : StoryRow → StoryRow) (hf : ∀ r, (f r).sid = r.sid)
    (h : findStory db sid = some st) :
    findStory (updStory db sid f) sid = some (f st) := by
  rw [findStory_updStory db sid sid f hf, h]
  simp only [Option.map_some', findStory_sid h, if_true]

theorem needs_archive_sql_iff (so : StoryRow) :
    needs_archive_sql so = true ↔
      (so.download_time = none ∨
        ∃ d u, so.download_time = some d ∧ so.updated = some u ∧ d < u) := by
  unfold needs_archive_sql
  rcases hd : so.download_time with _ | d
  · simp
  · rcases hu : so.updated with _ | u
    · simp
    · simp [decide_eq_true_iff]

theorem story_to_archive_ok_db {ad : Adapter} {db : DB} {sid : Nat}
    {now : Int} {p : Bool} {evs : List JobStatus} {fs : List FileWrite}
    {db' : DB} {st : StoryRow}
    (hfind : findStory db sid = some st)
    (hrun : story_to_archive ad db sid now p = (evs, fs, .ok db')) :
    ∃ md toc, ad.download_metadata st.archive st.site_id = .ok (md, toc) ∧
      db' = updStory (updStory db sid
          (fun r0 => { r0 with all_chapters := set_chapters r0.all_chapters 0 toc }))
        sid (fun s => { s with
          download_fn := some (get_mirror_filename md),
          download_time := some now }) := by
  unfold story_to_archive at hrun
  rw [hfind] at hrun
  dsimp only at hrun
  rcases hmd : ad.download_metadata st.archive st.site_id with e | ⟨md, toc⟩
  · rw [hmd] at hrun
    simp at hrun
  · rw [hmd] at hrun
    dsimp only at hrun
    rcases herr : (chapter_loop ad p st.chapters (get_mirror_filename md) 0 toc).2.2
      with _ | e
    · rw [herr] at hrun
      dsimp only at hrun
      simp only [Prod.mk.injEq] at hrun
      exact ⟨md, toc, rfl, (Except.ok.inj hrun.2.2).symm⟩
    · rw [herr] at hrun
      simp at hrun

theorem hyphen_code_split :
    ∀ (a b c d : List Char), '-' ∉ a → '-' ∉ c →
      a ++ '-' :: b = c ++ '-' :: d → a = c ∧ b = d
  | [], b, [], d, _, _, h => ⟨rfl, by simpa using h⟩
  | [], b, x :: c, d, _, hc, h => by
    simp only [List.nil_append, List.cons_append, List.cons.injEq] at h
    exact absurd (h.1 ▸ List.mem_cons_self x c) hc
  | x :: a, b, [], d, ha, _, h => by
    simp only [List.nil_append, List.cons_append, List.cons.injEq] at h
    exact absurd (h.1 ▸ List.mem_cons_self x a) ha
  | x :: a, b, y :: c, d, ha, hc, h => by
    simp only [List.cons_append, List.cons.injEq] at h
    obtain ⟨rfl, h2⟩ := h
    obtain ⟨h3, h4⟩ := hyphen_code_split a b c d
      (fun hm => ha (List.mem_cons_of_mem _ hm))
      (fun hm => hc (List.mem_cons_of_mem _ hm)) h2
    exact ⟨by rw [h3], h4⟩

theorem get_mirror_filename_data (md : StoryInfo) :
    (get_mirror_filename md).data = md.site.data ++ '-' :: md.id.data := by
  unfold get_mirror_filename
  rw [String.data_append, String.data_append]
  simp

theorem archive_step_authors (ad : Adapter) (now : Int) (p : Bool) (cnt : Nat)
    (db : DB) (n : Nat) (st : StoryRow) :
    ((archive_step ad now p cnt db n st).2.2).authors = db.authors := by
  unfold archive_step
  dsimp only
  rcases hr : (story_to_archive ad db st.sid now p).2.2 with e | db'
  · rfl
  · exact story_to_archive_ok_authors hr

theorem archive_loop_authors (ad : Adapter) (now : Int) (p : Bool) (cnt : Nat) :
    ∀ (l : List StoryRow) (n : Nat) (db : DB),
      ((archive_loop ad now p cnt n l db).2.2).authors = db.authors
  | [], _, _ => rfl
  | st :: rest, n, db => by
    unfold archive_loop
    dsimp only
    rw [archive_loop_authors ad now p cnt rest (n + 1) _,
      archive_step_authors]

/-- C2: `archive_author` selects exactly this author's stories whose
download-timestamp is NULL or strictly below their updated-timestamp, and a
successful `story_to_archive` at time `now` stamps the story's
download-timestamp to `now`, leaving its updated-timestamp unchanged — so
(the stored updated-timestamp not lying in the future of `now`) the story no
longer satisfies the selection predicate of an immediately following archive
run with no remote change. -/
theorem archive_selection_and_completion :
    (∀ (db : DB) (aoAid : Nat) (so : StoryRow),
      so ∈ archive_select db aoAid ↔
        so ∈ db.stories ∧ so.author_id = some aoAid ∧
          (so.download_time = none ∨
            ∃ d u, so.download_time = some d ∧ so.updated = some u ∧ d < u)) ∧
    (∀ (ad : Adapter) (db : DB) (sid : Nat) (now : Int) (p : Bool)
        (st : StoryRow) (evs : List JobStatus) (fs : List FileWrite) (db' : DB),
      findStory db sid = some st →
      story_to_archive ad db sid now p = (evs, fs, .ok db') →
      st.updated.all (fun u => decide (u ≤ now)) = true →
      ∃ st', findStory db' sid = some st' ∧ st'.download_time = some now ∧
        st'.updated = st.updated ∧ needs_archive_sql st' = false) := by
  constructor
  · intro db aoAid so
    unfold archive_select
    rw [List.mem_filter]
    simp only [Bool.and_eq_true, beq_iff_eq, needs_archive_sql_iff]
  · intro ad db sid now p st evs fs db' hfind hrun hle
    obtain ⟨md, toc, hmd, hdb⟩ := story_to_archive_ok_db hfind hrun
    subst hdb
    refine ⟨_, findStory_updStory_self _ (fun r => rfl)
      (findStory_updStory_self _ (fun r => rfl) hfind), rfl, rfl, ?_⟩
    unfold needs_archive_sql
    dsimp only
    rcases hu : st.updated with _ | u
    · rfl
    · rw [hu] at hle
      simp only [Option.all_some, decide_eq_true_iff] at hle
      simp [Int.not_lt.mpr hle]

/-- C8: archiving a story whose table of contents has `n` entries writes
exactly the files `0000.html` … `{n-1:04d}.html` (zero-padded four-digit
names, sortable in chapter order), all into the single story directory named
by `get_mirror_filename` of the fresh metadata; for every position `k < n`
the story's `k`-th chapter row title equals toc entry `k`; and the directory
name is uniquely derived from `(archive, site-id)` — two metadata records
with hyphen-free site keys map to the same name exactly when they agree on
site and id. -/
theorem archive_files_and_chapter_titles :
    (∀ (ad : Adapter) (db : DB) (sid : Nat) (now : Int) (p : Bool)
        (st : StoryRow) (md : StoryInfo) (toc : List ChapterInfo)
        (evs : List JobStatus) (fs : List FileWrite) (db' : DB),
      findStory db sid = some st →
      ad.download_metadata st.archive st.site_id = .ok (md, toc) →
      story_to_archive ad db sid now p = (evs, fs, .ok db') →
      fs.map (fun w => (w.dir, w.name)) =
        (List.range toc.length).map
          (fun k => (get_mirror_filename md, pad4 k ++ ".html")) ∧
      ∃ st', findStory db' sid = some st' ∧
        ∀ k, k < toc.length →
          (st'.all_chapters[k]?).map (fun c => c.title) =
            (toc[k]?).map (fun c => c.title)) ∧
    (∀ md1 md2 : StoryInfo, '-' ∉ md1.site.data → '-' ∉ md2.site.data →
      (get_mirror_filename md1 = get_mirror_filename md2 ↔
        md1.site = md2.site ∧ md1.id = md2.id)) := by
  constructor
  · intro ad db sid now p st md toc evs fs db' hfind hmd hrun
    obtain ⟨herr, hevs, hfs, hdb⟩ := story_to_archive_ok_elim hfind hmd hrun
    constructor
    · rw [hfs, chapter_loop_ok_files ad p st.chapters _ toc 0 herr]
      exact List.map_congr_left (fun k _ => by rw [Nat.zero_add])
    · subst hdb
      exact ⟨_, findStory_updStory_self _ (fun r => rfl)
          (findStory_updStory_self _ (fun r => rfl) hfind),
        fun k hk => set_chapters_title toc st.all_chapters 0 k hk⟩
  · intro md1 md2 h1 h2
    constructor
    · intro h
      have hd := congrArg String.data h
      rw [get_mirror_filename_data, get_mirror_filename_data] at hd
      obtain ⟨hs, hi⟩ := hyphen_code_split _ _ _ _ h1 h2 hd
      exact ⟨String.ext hs, String.ext hi⟩
    · rintro ⟨hs, hi⟩
      unfold get_mirror_filename
      rw [hs, hi]

/-- Witness for C2 on the fixture run: archiving the stored story (updated at
50, never downloaded) at time 100 stamps download-time 100 and the row no
longer needs archiving. -/
theorem archive_selection_and_completion_witness :
    ∃ st', findStory exArchDb 1 = some st' ∧ st'.download_time = some 100 ∧
      st'.updated = exStoryRow.updated ∧ needs_archive_sql st' = false :=
  archive_selection_and_completion.2 exAdapter exDb 1 100 true exStoryRow
    exArchRun.1 exArchRun.2.1 exArchDb (by rfl) (by rfl) (by rfl)

/-- Witness for C8 on the fixture run: the two-chapter fixture story yields
exactly `0000.html` and `0001.html` in its mirror directory, with chapter
titles matching the toc, and the fixture directory names of two stories with
distinct site ids differ. -/
theorem archive_files_and_chapter_titles_witness :
    (exArchRun.2.1.map (fun w => (w.dir, w.name)) =
      (List.range 2).map
        (fun k => (get_mirror_filename exStoryInfo, pad4 k ++ ".html")) ∧
      ∃ st', findStory exArchDb 1 = some st' ∧
        ∀ k, k < 2 →
          (st'.all_chapters[k]?).map (fun c => c.title) =
            (([⟨"c1"⟩, ⟨"c2"⟩] : List ChapterInfo)[k]?).map (fun c => c.title)) ∧
    (get_mirror_filename exStoryInfo = get_mirror_filename exStoryInfoB ↔
      exStoryInfo.site = exStoryInfoB.site ∧ exStoryInfo.id = exStoryInfoB.id) :=
  ⟨archive_files_and_chapter_titles.1 exAdapter exDb 1 100 true exStoryRow
      exStoryInfo [⟨"c1"⟩, ⟨"c2"⟩] exArchRun.1 exArchRun.2.1 exArchDb
      (by rfl) (by rfl) (by rfl),
   archive_files_and_chapter_titles.2 exStoryInfo exStoryInfoB
      (by decide) (by decide)⟩

/-- C10: every call to `archive_author` sets the author's `in_mirror` flag to
true regardless of its prior value (and touches no other author row), and the
scheduler's selection is exactly the set of `in_mirror` authors — hence an
archived author is enrolled in every subsequent `run_update` selection. -/
theorem archive_author_enrolls :
    (∀ (ad : Adapter) (db : DB) (aoAid : Nat) (now : Int) (p : Bool),
      ((archive_author ad db aoAid now p).2.2).authors =
        db.authors.map
          (fun a => if a.aid == aoAid then { a with in_mirror := true } else a)) ∧
    (∀ (db : DB) (a : AuthorRow),
      a ∈ select_update_authors db ↔ a ∈ db.authors ∧ a.in_mirror = true) := by
  constructor
  · intro ad db aoAid now p
    unfold archive_author
    dsimp only
    rw [archive_loop_authors]
    rfl
  · intro db a
    unfold select_update_authors
    rw [(List.perm_insertionSort author_le _).mem_iff, List.mem_filter]

/-! ### Scheduler lemmas: ordering and framing -/

instance : IsTotal AuthorRow author_le where
  total a b := by
    unfold author_le md_le
    rcases a.md_synced with _ | x <;> rcases b.md_synced with _ | y <;> simp
    omega

instance : IsTrans AuthorRow author_le where
  trans a b c hab hbc := by
    unfold author_le md_le at hab hbc ⊢
    rcases hA : a.md_synced with _ | x <;> rcases hB : b.md_synced with _ | y <;>
      rcases hC : c.md_synced with _ | z <;>
      rw [hA, hB] at hab <;> rw [hB, hC] at hbc <;> simp_all
    omega

theorem stframe_refl (db : DB) : StFrame db db := ⟨rfl, le_refl _⟩

theorem stframe_trans {db1 db2 db3 : DB} (h1 : StFrame db1 db2)
    (h2 : StFrame db2 db3) : StFrame db1 db3 :=
  ⟨h2.1.trans h1.1, h1.2.trans h2.2⟩

theorem stframe_updStory (db : DB) (sid : Nat) (f : StoryRow → StoryRow) :
    StFrame db (updStory db sid f) := ⟨rfl, le_refl _⟩

theorem tag_step_authors (soSid : Nat) (now : Int) (db : DB) (t : String) :
    (tag_step soSid now db t).authors = db.authors := by
  unfold tag_step
  rcases h : db.tags.find? (fun x => x.name == t) with _ | tg
  · rw [h]
  · rw [h]
    dsimp only
    split <;> rfl

theorem tag_step_next_id_le (soSid : Nat) (now : Int) (db : DB) (t : String) :
    db.next_id ≤ (tag_step soSid now db t).next_id := by
  unfold tag_step
  rcases h : db.tags.find? (fun x => x.name == t) with _ | tg
  · rw [h]
    exact Nat.le_succ _
  · rw [h]
    dsimp only
    split <;> exact le_refl _

theorem stframe_foldl_tag_step {soSid : Nat} {now : Int} :
    ∀ (l : List String) (db : DB), StFrame db (l.foldl (tag_step soSid now) db)
  | [], db => stframe_refl db
  | t :: l, db => by
    simp only [List.foldl_cons]
    exact stframe_trans ⟨tag_step_authors soSid now db t,
        tag_step_next_id_le soSid now db t⟩
      (stframe_foldl_tag_step l (tag_step soSid now db t))

theorem stframe_handle_tags_for (db : DB) (s : StoryInfo) (now : Int) :
    StFrame db (handle_tags_for db s now) := by
  unfold handle_tags_for
  rcases h : get_story db s.site s.id with _ | so
  · exact stframe_refl db
  · exact stframe_foldl_tag_step s.tags db

theorem stframe_sfm_update (db1 : DB) (sid : Nat) (s : StoryInfo)
    (aoAid : Nat) (now : Int) : StFrame db1 (sfm_update db1 sid s aoAid now) := by
  unfold sfm_update
  rcases hf : findStory db1 sid with _ | so
  · exact stframe_refl db1
  · dsimp only
    split
    · exact stframe_trans (stframe_updStory db1 sid (applyMd s))
        (stframe_trans (stframe_handle_tags_for _ s now)
          (stframe_updStory _ sid _))
    · exact stframe_refl db1

theorem stframe_sfm_create (db : DB) (s : StoryInfo) (found : Option Nat) :
    StFrame db (sfm_create db s found).1 := by
  unfold sfm_create
  rcases found with _ | sid
  · exact ⟨rfl, Nat.le_succ _⟩
  · exact stframe_refl db

theorem stframe_story_from_md (db : DB) (s : StoryInfo) (aoAid : Nat)
    (eso : Option Nat) (now : Int) :
    StFrame db (story_from_md db s aoAid eso now).1 := by
  unfold story_from_md
  dsimp only
  exact stframe_trans (stframe_sfm_create db s (sfm_resolve db s eso))
    (stframe_sfm_update _ _ s aoAid now)

theorem authFrame_refl (t : Nat) (db : DB) : AuthFrame t db db :=
  ⟨le_refl _, fun _ ha _ _ => ha⟩

theorem authFrame_trans {t : Nat} {db1 db2 db3 : DB}
    (h1 : AuthFrame t db1 db2) (h2 : AuthFrame t db2 db3) :
    AuthFrame t db1 db3 :=
  ⟨h1.1.trans h2.1, fun a ha hne hb =>
    h2.2 a (h1.2 a ha hne hb) hne (lt_of_lt_of_le hb h1.1)⟩

theorem authFrame_of_stframe {t : Nat} {db db' : DB} (h : StFrame db db') :
    AuthFrame t db db' :=
  ⟨h.2, fun _ ha _ _ => h.1 ▸ ha⟩

theorem authFrame_updAuthor (t : Nat) (db : DB) (f : AuthorRow → AuthorRow) :
    AuthFrame t db (updAuthor db t f) := by
  refine ⟨le_refl _, fun a ha hne _ => ?_⟩
  unfold updAuthor
  dsimp only
  have hg : (if (a.aid == t) = true then f a else a) = a := by simp [hne]
  exact hg ▸ List.mem_map_of_mem _ ha

theorem authFrame_fav_author_stub (t : Nat) (db : DB) (archive : String)
    (sm : StoryInfo) (fao : Option Nat) :
    AuthFrame t db (fav_author_stub db archive sm fao).1 := by
  unfold fav_author_stub
  rcases fao with _ | a
  · exact ⟨Nat.le_succ _, fun a ha _ _ => List.mem_append_left _ ha⟩
  · exact authFrame_refl t db

theorem stframe_fav_link (db : DB) (aoAid soSid : Nat) :
    StFrame db (fav_link db aoAid soSid) := by
  unfold fav_link
  split
  · exact stframe_refl db
  · exact ⟨rfl, le_refl _⟩

theorem authFrame_fav_step (t : Nat) (archive : String) (aoAid : Nat)
    (si_d : String → Option Nat) (now : Int) (db : DB) (sm : StoryInfo) :
    AuthFrame t db (fav_step archive aoAid si_d now db sm) := by
  unfold fav_step
  dsimp only
  exact authFrame_trans (authFrame_fav_author_stub t db archive sm _)
    (authFrame_trans (authFrame_of_stframe (stframe_story_from_md _ sm _ _ now))
      (authFrame_of_stframe (stframe_fav_link _ aoAid _)))

theorem authFrame_foldl_fav_step {t : Nat} {archive : String} {aoAid : Nat}
    {si_d : String → Option Nat} {now : Int} :
    ∀ (l : List StoryInfo) (db : DB),
      AuthFrame t db (l.foldl (fav_step archive aoAid si_d now) db)
  | [], db => authFrame_refl t db
  | sm :: l, db =>
    authFrame_trans (authFrame_fav_step t archive aoAid si_d now db sm)
      (authFrame_foldl_fav_step l _)

theorem stframe_foldl_sfm {aoAid : Nat} {si_d : String → Option Nat} {now : Int} :
    ∀ (l : List StoryInfo) (db : DB),
      StFrame db
        (l.foldl (fun db sm => (story_from_md db sm aoAid (si_d sm.id) now).1) db)
  | [], db => stframe_refl db
  | sm :: l, db =>
    stframe_trans (stframe_story_from_md db sm aoAid (si_d sm.id) now)
      (stframe_foldl_sfm l _)

theorem authFrame_sync_reconcile (db : DB) (archive : String) (aoAid : Nat)
    (lr : ListResult) (now : Int) :
    AuthFrame aoAid db (sync_reconcile db archive aoAid lr now) := by
  unfold sync_reconcile
  dsimp only
  exact authFrame_trans (authFrame_updAuthor aoAid db _)
    (authFrame_trans (authFrame_of_stframe (stframe_foldl_sfm lr.auth _))
      (authFrame_foldl_fav_step lr.fav _))

theorem sync_acquire_author_inl {db : DB} {archive aid : String}
    {info : AuthorInfo} {i : AuthorRow} {pr : DB × Nat}
    (h : sync_acquire_author db archive aid info (some i) = some pr) :
    pr = (db, i.aid) := by
  unfold sync_acquire_author at h
  dsimp only at h
  rcases hfa : findAuthor db i.aid with _ | x
  · rw [hfa] at h
    simp at h
  · rw [hfa] at h
    exact (Option.some_inj.mp h).symm

theorem sync_author_inl_ok_frame {ad : Adapter} {db : DB} {i : AuthorRow}
    {now : Int} {p : Bool} {evs : List JobStatus} {db' : DB}
    (h : sync_author ad db (.inl i) now p = (evs, .ok db')) :
    AuthFrame i.aid db db' := by
  unfold sync_author at h
  dsimp only [ref_archive, ref_aid, ref_author] at h
  rcases hdl : ad.download_list i.archive i.site_id with e | lr
  · rw [hdl] at h
    cases p <;> simp at h
  · rw [hdl] at h
    dsimp only at h
    rcases hacq : sync_acquire_author db i.archive i.site_id lr.info (some i)
      with _ | pr
    · rw [hacq] at h
      simp at h
    · rw [hacq] at h
      obtain ⟨db1, aoAid⟩ := pr
      dsimp only at h
      simp only [Prod.mk.injEq] at h
      have hdb : db' = sync_reconcile db1 i.archive aoAid lr now :=
        (Except.ok.inj h.2).symm
      have hpr := sync_acquire_author_inl hacq
      simp only [Prod.mk.injEq] at hpr
      rw [hdb, hpr.1, hpr.2]
      exact authFrame_sync_reconcile db i.archive i.aid lr now

theorem story_to_archive_ok_next_id {ad : Adapter} {db : DB} {sid : Nat}
    {now : Int} {p : Bool} {db' : DB}
    (h : (story_to_archive ad db sid now p).2.2 = .ok db') :
    db'.next_id = db.next_id := by
  unfold story_to_archive at h
  rcases h1 : findStory db sid with _ | st
  · rw [h1] at h
    simp at h
  · rw [h1] at h
    dsimp only at h
    rcases h2 : ad.download_metadata st.archive st.site_id with e | ⟨md, toc⟩
    · rw [h2] at h
      simp at h
    · rw [h2] at h
      dsimp only at h
      rcases h3 : (chapter_loop ad p st.chapters (get_mirror_filename md) 0
          toc).2.2 with _ | e
      · rw [h3] at h
        dsimp only at h
        rw [← Except.ok.inj h]
        rfl
      · rw [h3] at h
        simp at h

theorem archive_step_next_id (ad : Adapter) (now : Int) (p : Bool) (cnt : Nat)
    (db : DB) (n : Nat) (st : StoryRow) :
    ((archive_step ad now p cnt db n st).2.2).next_id = db.next_id := by
  unfold archive_step
  dsimp only
  rcases hr : (story_to_archive ad db st.sid now p).2.2 with e | db'
  · rfl
  · exact story_to_archive_ok_next_id hr

theorem archive_loop_next_id (ad : Adapter) (now : Int) (p : Bool) (cnt : Nat) :
    ∀ (l : List StoryRow) (n : Nat) (db : DB),
      ((archive_loop ad now p cnt n l db).2.2).next_id = db.next_id
  | [], _, _ => rfl
  | st :: rest, n, db => by
    unfold archive_loop
    dsimp only
    rw [archive_loop_next_id ad now p cnt rest (n + 1) _, archive_step_next_id]

theorem authFrame_archive_author (ad : Adapter) (db : DB) (aoAid : Nat)
    (now : Int) (p : Bool) :
    AuthFrame aoAid db ((archive_author ad db aoAid now p).2.2) := by
  unfold archive_author
  dsimp only
  exact authFrame_trans (authFrame_updAuthor aoAid db _)
    (authFrame_of_stframe ⟨archive_loop_authors ad now p _ _ 0 _,
      le_of_eq (archive_loop_next_id ad now p _ _ 0 _).symm⟩)

theorem run_update_loop_keep {ad : Adapter} {now : Int} {p : Bool} {tot : Int}
    {a : AuthorRow} :
    ∀ (l : List AuthorRow) (n : Nat) (db : DB),
      (∀ b ∈ l, b.aid ≠ a.aid) → a ∈ db.authors → a.aid < db.next_id →
      a ∈ ((run_update_loop ad now p tot n l db).2.2).authors
  | [], _, _, _, ha, _ => ha
  | i :: rest, n, db, hne, ha, hb => by
    unfold run_update_loop
    dsimp only
    have hane : a.aid ≠ i.aid := fun hx => hne i (List.mem_cons_self i rest) hx.symm
    rcases hs : (sync_author ad db (.inl i) now p).2 with e | db1
    · exact run_update_loop_keep rest (n + 1) db
        (fun b hbm => hne b (List.mem_cons_of_mem _ hbm)) ha hb
    · dsimp only
      have heq : sync_author ad db (.inl i) now p =
          ((sync_author ad db (.inl i) now p).1, .ok db1) := by
        rw [← hs]
      have hf1 : AuthFrame i.aid db db1 := sync_author_inl_ok_frame heq
      have hf2 : AuthFrame i.aid db1 ((archive_author ad db1 i.aid now p).2.2) :=
        authFrame_archive_author ad db1 i.aid now p
      have hf := authFrame_trans hf1 hf2
      exact run_update_loop_keep rest (n + 1) _
        (fun b hbm => hne b (List.mem_cons_of_mem _ hbm))
        (hf.2 a ha hane hb) (lt_of_lt_of_le hb hf.1)

/-- C3: the scheduler's selection is exactly the `in_mirror` author rows (a
permutation of the filter), ordered ascending by `md_synced` with never-synced
(NULL) authors first; with `max_authors` it visits exactly the first
`max_authors` rows of that order, and every author row outside the visited
prefix survives the whole run unchanged. -/
theorem run_update_order_and_cap :
    (∀ db : DB, (select_update_authors db).Perm
      (db.authors.filter (fun a => a.in_mirror))) ∧
    (∀ db : DB, (select_update_authors db).Sorted author_le) ∧
    (∀ (db : DB) (m : Nat), run_update_processed db (some m) =
      (select_update_authors db).take m) ∧
    (∀ db : DB, run_update_processed db none = select_update_authors db) ∧
    (∀ (ad : Adapter) (db : DB) (now : Int) (p : Bool) (m : Option Nat)
        (a : AuthorRow), a ∈ db.authors → a.aid < db.next_id →
      (∀ b ∈ run_update_processed db m, b.aid ≠ a.aid) →
      a ∈ ((run_update ad db now p m).2.2).authors) := by
  refine ⟨?_, ?_, fun db m => rfl, fun db => rfl, ?_⟩
  · exact fun db => List.perm_insertionSort author_le _
  · exact fun db => List.sorted_insertionSort author_le _
  · intro ad db now p m a ha hb hne
    unfold run_update
    exact run_update_loop_keep (run_update_processed db m) 0 db hne ha hb

/-- Witness for C3 on the scheduler fixture: with a cap of one author, the
never-synced author is visited first and the other in-mirror author's row
survives the run unchanged. -/
theorem run_update_order_and_cap_witness :
    run_update_processed exSchedDb (some 1) = [exSchedA2] ∧
    exSchedA1 ∈ ((run_update exAdapter exSchedDb 7 true (some 1)).2.2).authors :=
  ⟨by decide,
   run_update_order_and_cap.2.2.2.2 exAdapter exSchedDb 7 true (some 1)
     exSchedA1 (by decide) (by decide) (by decide)⟩

/-! ### Event-stream lemmas for the scheduler (claim C4) -/

theorem mem_progress_if {p : Bool} {ev e : JobStatus}
    (he : e ∈ (if p then [ev] else [])) : e = ev := by
  cases p
  · simp at he
  · simpa using he

theorem filter_author_eq_nil {l : List JobStatus}
    (h : ∀ e ∈ l, e.type ≠ "author") :
    l.filter (fun e => e.type == "author") = [] := by
  induction l with
  | nil => rfl
  | cons x xs ih =>
    have hx : (x.type == "author") = false := by
      simp [h x (List.mem_cons_self x xs)]
    rw [List.filter_cons, hx]
    exact ih (fun e he => h e (List.mem_cons_of_mem _ he))

theorem sync_author_events_type (ad : Adapter) (db : DB) (ido : SyncRef)
    (now : Int) (p : Bool) :
    ∀ e ∈ (sync_author ad db ido now p).1, e.type = "error" := by
  intro e he
  unfold sync_author at he
  dsimp only at he
  rcases hdl : ad.download_list (ref_archive ido) (ref_aid ido) with er | lr
  · rw [hdl] at he
    dsimp only at he
    cases p
    · simp at he
    · rcases href : ref_author db ido with _ | a
      · rw [href] at he
        simp at he
      · rw [href] at he
        simp at he
        rw [he]
  · rw [hdl] at he
    dsimp only at he
    rcases hacq : sync_acquire_author db (ref_archive ido) (ref_aid ido)
      lr.info (ref_author db ido) with _ | pr
    · rw [hacq] at he
      simp at he
    · rw [hacq] at he
      obtain ⟨db1, aoAid⟩ := pr
      simp at he

theorem chapter_loop_events_type (ad : Adapter) (p : Bool) (tot : Option Int)
    (rfn : String) :
    ∀ (toc : List ChapterInfo) (n : Nat),
      ∀ e ∈ (chapter_loop ad p tot rfn n toc).1, e.type = "chapter"
  | [], n => by
    intro e he
    simp [chapter_loop] at he
  | c :: cs, n => by
    rcases hdc : ad.download_chapter c with er | txt
    · rw [chapter_loop_cons_error p tot rfn n cs hdc]
      intro e he
      rw [mem_progress_if he]
    · rw [chapter_loop_cons_ok p tot rfn n cs hdc]
      intro e he
      dsimp only at he
      rw [List.mem_append] at he
      rcases he with he | he
      · rw [mem_progress_if he]
      · exact chapter_loop_events_type ad p tot rfn cs (n + 1) e he

theorem story_to_archive_events_type (ad : Adapter) (db : DB) (sid : Nat)
    (now : Int) (p : Bool) :
    ∀ e ∈ (story_to_archive ad db sid now p).1, e.type = "chapter" := by
  unfold story_to_archive
  rcases h1 : findStory db sid with _ | st
  · intro e he
    simp at he
  · dsimp only
    rcases h2 : ad.download_metadata st.archive st.site_id with er | ⟨md, toc⟩
    · intro e he
      simp at he
    · dsimp only
      rcases h3 : (chapter_loop ad p st.chapters (get_mirror_filename md) 0
          toc).2.2 with _ | er
      · exact fun e he =>
          chapter_loop_events_type ad p st.chapters (get_mirror_filename md)
            toc 0 e he
      · exact fun e he =>
          chapter_loop_events_type ad p st.chapters (get_mirror_filename md)
            toc 0 e he

theorem archive_step_events_type (ad : Adapter) (now : Int) (p : Bool)
    (cnt : Nat) (db : DB) (n : Nat) (st : StoryRow) :
    ∀ e ∈ (archive_step ad now p cnt db n st).1, e.type ≠ "author" := by
  unfold archive_step
  dsimp only
  rcases hr : (story_to_archive ad db st.sid now p).2.2 with er | db'
  · intro e he
    dsimp only at he
    rw [List.mem_append, List.mem_append] at he
    rcases he with (he | he) | he
    · rw [mem_progress_if he]
      show ("story" : String) ≠ "author"
      decide
    · rw [story_to_archive_events_type ad db st.sid now p e he]
      decide
    · rw [mem_progress_if he]
      show ("error" : String) ≠ "author"
      decide
  · intro e he
    dsimp only at he
    rw [List.mem_append] at he
    rcases he with he | he
    · rw [mem_progress_if he]
      show ("story" : String) ≠ "author"
      decide
    · rw [story_to_archive_events_type ad db st.sid now p e he]
      decide

theorem archive_loop_events_type (ad : Adapter) (now : Int) (p : Bool)
    (cnt : Nat) :
    ∀ (l : List StoryRow) (n : Nat) (db : DB),
      ∀ e ∈ (archive_loop ad now p cnt n l db).1, e.type ≠ "author"
  | [], _, _ => by
    intro e he
    simp [archive_loop] at he
  | st :: rest, n, db => by
    unfold archive_loop
    dsimp only
    intro e he
    rw [List.mem_append] at he
    rcases he with he | he
    · exact archive_step_events_type ad now p cnt db n st e he
    · exact archive_loop_events_type ad now p cnt rest (n + 1) _ e he

theorem archive_author_events_type (ad : Adapter) (db : DB) (aoAid : Nat)
    (now : Int) (p : Bool) :
    ∀ e ∈ (archive_author ad db aoAid now p).1, e.type ≠ "author" := by
  unfold archive_author
  dsimp only
  exact archive_loop_events_type ad now p _ _ 0 _

theorem run_update_loop_author_filter (ad : Adapter) (now : Int) (tot : Int) :
    ∀ (l : List AuthorRow) (n : Nat) (db : DB),
      ((run_update_loop ad now true tot n l db).1).filter
          (fun e => e.type == "author") =
        author_events tot n l
  | [], _, _ => rfl
  | i :: rest, n, db => by
    unfold run_update_loop
    dsimp only
    have hsync : ∀ (d : DB),
        ((sync_author ad d (.inl i) now true).1).filter
          (fun e => e.type == "author") = [] :=
      fun d => filter_author_eq_nil (fun e he => by
        rw [sync_author_events_type ad d (.inl i) now true e he]
        decide)
    rcases hs : (sync_author ad db (.inl i) now true).2 with er | db1
    · dsimp only
      rw [List.filter_append, List.filter_append, hsync db,
        run_update_loop_author_filter ad now tot rest (n + 1) db]
      simp [author_events]
    · dsimp only
      rw [List.filter_append, List.filter_append, List.filter_append, hsync db,
        filter_author_eq_nil (archive_author_events_type ad db1 i.aid now true),
        run_update_loop_author_filter ad now tot rest (n + 1) _]
      simp [author_events]

/-- C4: the scheduler swallows every per-author exception — the author-level
progress events it emits are exactly one per selected author, in order,
independent of any adapter failures (so every later author is still
attempted, and no author's failure propagates out of `run_update`); and in
the concrete three-author scenario where the adapter raises during the second
author's sync, the run reports exactly one error event naming the second
author, visits all three authors, completes the third (its `md_synced` is
stamped) and leaves the failed author's row uncommitted. -/
theorem run_update_failure_isolation :
    (∀ (ad : Adapter) (db : DB) (now : Int) (m : Option Nat),
      ((run_update ad db now true m).1).filter (fun e => e.type == "author") =
        author_events (run_update_total db m) 0 (run_update_processed db m)) ∧
    ((exScen3Run.1).filter (fun e => e.type == "error") =
        [⟨"error", some "A2", none, none, some "boom"⟩] ∧
      (exScen3Run.1).filter (fun e => e.type == "author") =
        author_events 3 0 [exScen3A1, exScen3A2, exScen3A3] ∧
      findAuthor exScen3Run.2.2 3 = some { exScen3A3 with md_synced := some 10 } ∧
      findAuthor exScen3Run.2.2 2 = some exScen3A2) := by
  constructor
  · intro ad db now m
    unfold run_update
    exact run_update_loop_author_filter ad now _ _ 0 db
  · exact ⟨by decide, by decide, by decide, by decide⟩

/-- C6: evaluation of `sync_author`'s adapter-failure path.  For an existing
author the claim holds: one error event naming the author is delivered first,
the original exception is re-raised, and nothing is committed (the result
carries no state).  But for an `(archive, id)` pair not yet in the store with
a progress sink supplied — an input the contract admits — the except branch
evaluates `ao.name` with `ao = None`, so an `AttributeError` is raised before
the event is delivered: no error event reaches the sink and the original
exception is replaced, contradicting the claim. -/
theorem sync_author_error_reporting_bug :
    (sync_author exFailAd exDb (.inl exAuthorRow) 0 true =
      ([⟨"error", some "ann", none, none, some "netfail"⟩],
        .error (.adapterExc "netfail"))) ∧
    (sync_author exFailAd exDb (.inl exAuthorRow) 0 false =
      ([], .error (.adapterExc "netfail"))) ∧
    (sync_author exFailAd exDb (.inr ("ff", "unknown")) 0 true =
      ([], .error .attributeError)) :=
  ⟨rfl, rfl, rfl⟩

/-- Witness for C1: the fixture row and summary differ only in summary text;
`_check_update` is false and `_story_from_md` leaves the state untouched. -/
theorem check_update_sole_change_signal_witness :
    exStoryRow.summary ≠ some exStoryInfo.summary ∧
    check_update exStoryRow exStoryInfo = false ∧
    story_from_md exDb exStoryInfo 0 (some 1) 7 = (exDb, 1) :=
  ⟨by decide, by decide,
   check_update_sole_change_signal.2 exDb exStoryInfo 0 1 exStoryRow 7
     (by decide) (by decide)⟩

/-! ### Key-based lookup lemmas under uniqueness (claim C5) -/

theorem find?_eq_some_of_unique {α : Type} :
    ∀ (l : List α) (p : α → Bool) (r : α), r ∈ l → p r = true →
      (∀ x ∈ l, p x = true → x = r) → l.find? p = some r
  | [], _, r, hr, _, _ => absurd hr (by simp)
  | a :: l, p, r, hr, hpr, hu => by
    rw [List.find?_cons]
    by_cases ha : p a = true
    · have hae : a = r := hu a (List.mem_cons_self a l) ha
      subst hae
      simp [ha]
    · have hr' : r ∈ l :=
        (List.mem_cons.mp hr).resolve_left (fun e => ha (e ▸ hpr))
      have hab : p a = false := Bool.eq_false_iff.mpr ha
      rw [hab]
      exact find?_eq_some_of_unique l p r hr' hpr
        (fun x hx hpx => hu x (List.mem_cons_of_mem _ hx) hpx)

theorem findStory_of_mem {db : DB} {r : StoryRow}
    (hn : (db.stories.map (fun s => s.sid)).Nodup) (hr : r ∈ db.stories) :
    findStory db r.sid = some r := by
  unfold findStory
  refine find?_eq_some_of_unique db.stories _ r hr (by simp)
    (fun x hx hpx => ?_)
  exact List.inj_on_of_nodup_map hn hx hr (beq_iff_eq.mp hpx)

theorem get_story_of_mem {db : DB} {r : StoryRow}
    (hn : (db.stories.map (fun s => (s.archive, s.site_id))).Nodup)
    (hr : r ∈ db.stories) : get_story db r.archive r.site_id = some r := by
  unfold get_story
  refine find?_eq_some_of_unique db.stories _ r hr (by simp)
    (fun x hx hpx => ?_)
  simp only [Bool.and_eq_true, beq_iff_eq] at hpx
  exact List.inj_on_of_nodup_map hn hx hr (by rw [hpx.1, hpx.2])

theorem get_author_of_mem {db : DB} {a : AuthorRow}
    (hn : (db.authors.map (fun x => (x.archive, x.site_id))).Nodup)
    (ha : a ∈ db.authors) : get_author db a.archive a.site_id = some a := by
  unfold get_author
  refine find?_eq_some_of_unique db.authors _ a ha (by simp)
    (fun x hx hpx => ?_)
  simp only [Bool.and_eq_true, beq_iff_eq] at hpx
  exact List.inj_on_of_nodup_map hn hx ha (by rw [hpx.1, hpx.2])

theorem findAuthor_of_mem {db : DB} {a : AuthorRow}
    (hn : (db.authors.map (fun x => x.aid)).Nodup) (ha : a ∈ db.authors) :
    findAuthor db a.aid = some a := by
  unfold findAuthor
  refine find?_eq_some_of_unique db.authors _ a ha (by simp)
    (fun x hx hpx => ?_)
  exact List.inj_on_of_nodup_map hn hx ha (beq_iff_eq.mp hpx)

theorem findAuthor_isSome_of_mem {db : DB} {a : AuthorRow}
    (ha : a ∈ db.authors) : ∃ x, findAuthor db a.aid = some x := by
  rw [← Option.isSome_iff_exists]
  unfold findAuthor
  rw [List.find?_isSome]
  exact ⟨a, ha, by simp⟩

theorem mem_of_get_story {db : DB} {archive sid : String} {r : StoryRow}
    (h : get_story db archive sid = some r) :
    r ∈ db.stories ∧ r.archive = archive ∧ r.site_id = sid := by
  unfold get_story at h
  have hm := List.mem_of_find?_eq_some h
  have hp := List.find?_some h
  simp only [Bool.and_eq_true, beq_iff_eq] at hp
  exact ⟨hm, hp.1, hp.2⟩

theorem mem_of_get_author {db : DB} {archive aid : String} {a : AuthorRow}
    (h : get_author db archive aid = some a) :
    a ∈ db.authors ∧ a.archive = archive ∧ a.site_id = aid := by
  unfold get_author at h
  have hm := List.mem_of_find?_eq_some h
  have hp := List.find?_some h
  simp only [Bool.and_eq_true, beq_iff_eq] at hp
  exact ⟨hm, hp.1, hp.2⟩

theorem get_story_eq_none {db : DB} {archive sid : String}
    (h : get_story db archive sid = none) :
    ∀ r ∈ db.stories, ¬(r.archive = archive ∧ r.site_id = sid) := by
  unfold get_story at h
  rw [List.find?_eq_none] at h
  intro r hr hcon
  exact h r hr (by simp [hcon.1, hcon.2])

theorem get_author_eq_none {db : DB} {archive aid : String}
    (h : get_author db archive aid = none) :
    ∀ a ∈ db.authors, ¬(a.archive = archive ∧ a.site_id = aid) := by
  unfold get_author at h
  rw [List.find?_eq_none] at h
  intro a ha hcon
  exact h a ha (by simp [hcon.1, hcon.2])

/-! ### Shape lemmas for the `_story_from_md` update branch (claim C5) -/

theorem tag_step_fav (soSid : Nat) (now : Int) (db : DB) (t : String) :
    (tag_step soSid now db t).fav_stories = db.fav_stories := by
  unfold tag_step
  rcases h : db.tags.find? (fun x => x.name == t) with _ | tg
  · rw [h]
  · rw [h]
    dsimp only
    split <;> rfl

theorem foldl_tag_step_fav {soSid : Nat} {now : Int} :
    ∀ (l : List String) (db : DB),
      (l.foldl (tag_step soSid now) db).fav_stories = db.fav_stories
  | [], _ => rfl
  | t :: l, db => by
    simp only [List.foldl_cons]
    rw [foldl_tag_step_fav l, tag_step_fav]

theorem handle_tags_for_fav (db : DB) (md : StoryInfo) (now : Int) :
    (handle_tags_for db md now).fav_stories = db.fav_stories := by
  unfold handle_tags_for
  rcases h : get_story db md.site md.id with _ | so
  · rfl
  · exact foldl_tag_step_fav md.tags db

theorem sfm_upd_path_stories (db : DB) (sid : Nat) (s : StoryInfo)
    (aoAid : Nat) (now : Int) :
    (sfm_upd_path db sid s aoAid now).stories =
      db.stories.map (fun r => if (r.sid == sid) = true then
        { applyMd s r with author_id := some aoAid } else r) := by
  have h1 : (sfm_upd_path db sid s aoAid now).stories =
      ((handle_tags_for (updStory db sid (applyMd s)) s now).stories).map
        (fun r => if (r.sid == sid) = true then
          { r with author_id := some aoAid } else r) := rfl
  rw [h1, handle_tags_for_stories]
  have h2 : (updStory db sid (applyMd s)).stories =
      db.stories.map (fun r => if (r.sid == sid) = true then applyMd s r else r) :=
    rfl
  rw [h2, List.map_map]
  refine List.map_congr_left (fun r _ => ?_)
  by_cases h : (r.sid == sid) = true
  · have h2 : ((applyMd s r).sid == sid) = true := h
    simp only [Function.comp, if_pos h, if_pos h2]
  · simp only [Function.comp, if_neg h]

theorem sfm_upd_path_authors (db : DB) (sid : Nat) (s : StoryInfo)
    (aoAid : Nat) (now : Int) :
    (sfm_upd_path db sid s aoAid now).authors = db.authors := by
  have h1 : (sfm_upd_path db sid s aoAid now).authors =
      (handle_tags_for (updStory db sid (applyMd s)) s now).authors := rfl
  rw [h1, (stframe_handle_tags_for (updStory db sid (applyMd s)) s now).1]
  rfl

theorem sfm_upd_path_fav (db : DB) (sid : Nat) (s : StoryInfo)
    (aoAid : Nat) (now : Int) :
    (sfm_upd_path db sid s aoAid now).fav_stories = db.fav_stories := by
  have h1 : (sfm_upd_path db sid s aoAid now).fav_stories =
      (handle_tags_for (updStory db sid (applyMd s)) s now).fav_stories := rfl
  rw [h1, handle_tags_for_fav]
  rfl

theorem sfm_upd_path_next_id_le (db : DB) (sid : Nat) (s : StoryInfo)
    (aoAid : Nat) (now : Int) :
    db.next_id ≤ (sfm_upd_path db sid s aoAid now).next_id := by
  have h1 : (sfm_upd_path db sid s aoAid now).next_id =
      (handle_tags_for (updStory db sid (applyMd s)) s now).next_id := rfl
  rw [h1]
  exact (stframe_handle_tags_for (updStory db sid (applyMd s)) s now).2

theorem upd_fun_preserves (sm : StoryInfo) (aoAid sid : Nat) (r : StoryRow) :
    ((if (r.sid == sid) = true then
        { applyMd sm r with author_id := some aoAid } else r).sid = r.sid) ∧
    ((if (r.sid == sid) = true then
        { applyMd sm r with author_id := some aoAid } else r).archive = r.archive) ∧
    ((if (r.sid == sid) = true then
        { applyMd sm r with author_id := some aoAid } else r).site_id = r.site_id) := by
  by_cases h : (r.sid == sid) = true
  · rw [if_pos h]
    exact ⟨rfl, rfl, rfl⟩
  · rw [if_neg h]
    exact ⟨rfl, rfl, rfl⟩

theorem map_upd_keys (l : List StoryRow) (sm : StoryInfo) (aoAid sid : Nat) :
    (l.map (fun r => if (r.sid == sid) = true then
        { applyMd sm r with author_id := some aoAid } else r)).map
      (fun s => (s.archive, s.site_id)) = l.map (fun s => (s.archive, s.site_id)) := by
  rw [List.map_map]
  exact List.map_congr_left (fun r _ => by
    have h := upd_fun_preserves sm aoAid sid r
    simp only [Function.comp]
    rw [h.2.1, h.2.2])

theorem map_upd_sids (l : List StoryRow) (sm : StoryInfo) (aoAid sid : Nat) :
    (l.map (fun r => if (r.sid == sid) = true then
        { applyMd sm r with author_id := some aoAid } else r)).map
      (fun s => s.sid) = l.map (fun s => s.sid) := by
  rw [List.map_map]
  exact List.map_congr_left (fun r _ => by
    have h := upd_fun_preserves sm aoAid sid r
    simp only [Function.comp]
    rw [h.1])

theorem check_update_applyMd (r : StoryRow) (sm : StoryInfo) (x : Option Nat) :
    check_update { applyMd sm r with author_id := x } sm = false := by
  simp [check_update, applyMd]

theorem check_update_new (n : Nat) (a s : String) (sm : StoryInfo) :
    check_update (StoryRow.new n a s) sm = true := rfl

/-- The combined effect of `_story_from_md`'s update branch on a resolved
existing row `r0`: well-formedness is preserved (with the resolved row now
owned by `aoAid`), the row carries the incoming metadata (change signal
clear), all other rows are untouched, and the favourites/authors tables are
unchanged. -/
theorem sfm_upd_pack (db : DB) (sm : StoryInfo) (archive : String)
    (aoAid : Nat) (now : Int) {r0 : StoryRow}
    (keysN : (db.stories.map (fun s => (s.archive, s.site_id))).Nodup)
    (sidsN : (db.stories.map (fun s => s.sid)).Nodup)
    (sidB : ∀ s ∈ db.stories, s.sid < db.next_id)
    (akeysN : (db.authors.map (fun a => (a.archive, a.site_id))).Nodup)
    (aidsN : (db.authors.map (fun a => a.aid)).Nodup)
    (aidB : ∀ a ∈ db.authors, a.aid < db.next_id)
    (saOk : ∀ r ∈ db.stories, r.sid ≠ r0.sid →
      ∃ a ∈ db.authors, r.author_id = some a.aid ∧ r.archive = a.archive)
    (favOk : ∀ p ∈ db.fav_stories, ∃ a ∈ db.authors, ∃ s ∈ db.stories,
      p = (a.aid, s.sid) ∧ s.archive = a.archive)
    (hr0 : r0 ∈ db.stories) (hr0arch : r0.archive = archive)
    (hr0site : r0.site_id = sm.id)
    (hao : ∃ a ∈ db.authors, a.aid = aoAid ∧ a.archive = archive) :
    WFdb (sfm_upd_path db r0.sid sm aoAid now) ∧
    (∃ r ∈ (sfm_upd_path db r0.sid sm aoAid now).stories, r.sid = r0.sid ∧
      r.archive = archive ∧ r.site_id = sm.id ∧ check_update r sm = false) ∧
    (∀ r ∈ db.stories, r.sid ≠ r0.sid →
      r ∈ (sfm_upd_path db r0.sid sm aoAid now).stories) ∧
    (sfm_upd_path db r0.sid sm aoAid now).fav_stories = db.fav_stories ∧
    (sfm_upd_path db r0.sid sm aoAid now).authors = db.authors ∧
    db.next_id ≤ (sfm_upd_path db r0.sid sm aoAid now).next_id ∧
    (∀ r ∈ db.stories, ∃ r' ∈ (sfm_upd_path db r0.sid sm aoAid now).stories,
      r'.sid = r.sid ∧ r'.site_id = r.site_id ∧ r'.archive = r.archive) := by
  have hstories := sfm_upd_path_stories db r0.sid sm aoAid now
  have hfav := sfm_upd_path_fav db r0.sid sm aoAid now
  have hauth := sfm_upd_path_authors db r0.sid sm aoAid now
  have hnid := sfm_upd_path_next_id_le db r0.sid sm aoAid now
  have huntouched : ∀ r ∈ db.stories, r.sid ≠ r0.sid →
      r ∈ (sfm_upd_path db r0.sid sm aoAid now).stories := by
    intro r hr hne
    rw [hstories]
    have hg : (if (r.sid == r0.sid) = true then
        { applyMd sm r with author_id := some aoAid } else r) = r := by
      rw [if_neg (by simpa using hne)]
    exact hg ▸ List.mem_map_of_mem _ hr
  have htransfer : ∀ r ∈ db.stories,
      ∃ r' ∈ (sfm_upd_path db r0.sid sm aoAid now).stories,
        r'.sid = r.sid ∧ r'.site_id = r.site_id ∧ r'.archive = r.archive := by
    intro r hr
    rw [hstories]
    refine ⟨_, List.mem_map_of_mem _ hr, ?_, ?_, ?_⟩
    · exact (upd_fun_preserves sm aoAid r0.sid r).1
    · exact (upd_fun_preserves sm aoAid r0.sid r).2.2
    · exact (upd_fun_preserves sm aoAid r0.sid r).2.1
  have hnew : ({ applyMd sm r0 with author_id := some aoAid } : StoryRow) ∈
      (sfm_upd_path db r0.sid sm aoAid now).stories := by
    rw [hstories]
    have hg : (if (r0.sid == r0.sid) = true then
        { applyMd sm r0 with author_id := some aoAid } else r0) =
        ({ applyMd sm r0 with author_id := some aoAid } : StoryRow) := by
      rw [if_pos (by simp)]
    exact hg ▸ List.mem_map_of_mem _ hr0
  refine ⟨?_, ⟨_, hnew, rfl, hr0arch, hr0site, check_update_applyMd r0 sm _⟩,
    huntouched, hfav, hauth, hnid, htransfer⟩
  obtain ⟨ao, haomem, haoaid, haoarch⟩ := hao
  refine ⟨?_, ?_, ?_, ?_, ?_, ?_, ?_, ?_⟩
  · rw [hstories, map_upd_keys]
    exact keysN
  · rw [hstories, map_upd_sids]
    exact sidsN
  · intro s hs
    rw [hstories] at hs
    obtain ⟨r, hr, hrs⟩ := List.mem_map.mp hs
    have := (upd_fun_preserves sm aoAid r0.sid r).1
    rw [hrs] at this
    rw [this]
    exact lt_of_lt_of_le (sidB r hr) hnid
  · rw [hauth]
    exact akeysN
  · rw [hauth]
    exact aidsN
  · intro a ha
    rw [hauth] at ha
    exact lt_of_lt_of_le (aidB a ha) hnid
  · intro s hs
    rw [hstories] at hs
    obtain ⟨r, hr, hrs⟩ := List.mem_map.mp hs
    by_cases hcase : (r.sid == r0.sid) = true
    · have hreq : r = r0 :=
        List.inj_on_of_nodup_map sidsN hr hr0 (beq_iff_eq.mp hcase)
      rw [if_pos hcase] at hrs
      refine ⟨ao, by rw [hauth]; exact haomem, ?_, ?_⟩
      · rw [← hrs, haoaid]
      · rw [← hrs, haoarch]
        show r.archive = archive
        rw [hreq, hr0arch]
    · rw [if_neg hcase] at hrs
      obtain ⟨a, hamem, haid, harch⟩ :=
        saOk r hr (fun e => hcase (by simp [e]))
      exact ⟨a, by rw [hauth]; exact hamem, by rw [← hrs]; exact haid,
        by rw [← hrs]; exact harch⟩
  · intro p hp
    rw [hfav] at hp
    obtain ⟨a, hamem, s, hsmem, hps, hsa⟩ := favOk p hp
    obtain ⟨s', hs'mem, hs'sid, _, hs'arch⟩ := htransfer s hsmem
    refine ⟨a, by rw [hauth]; exact hamem, s', hs'mem, ?_, ?_⟩
    · rw [hps, hs'sid]
    · rw [hs'arch, hsa]

theorem story_from_md_eq_resolved {db : DB} {sm : StoryInfo} {aoAid : Nat}
    {eso : Option Nat} {now : Int} {s0 : Nat}
    (hres : sfm_resolve db sm eso = some s0) :
    story_from_md db sm aoAid eso now = (sfm_update db s0 sm aoAid now, s0) := by
  unfold story_from_md
  dsimp only
  rw [hres]
  rfl

theorem story_from_md_eq_created {db : DB} {sm : StoryInfo} {aoAid : Nat}
    {eso : Option Nat} {now : Int}
    (hres : sfm_resolve db sm eso = none) :
    story_from_md db sm aoAid eso now =
      (sfm_update { db with
          stories := db.stories ++ [StoryRow.new db.next_id sm.site sm.id],
          next_id := db.next_id + 1 } db.next_id sm aoAid now, db.next_id) := by
  unfold story_from_md
  dsimp only
  rw [hres]
  rfl

theorem sfm_update_of_found_false {db : DB} {sid : Nat} {sm : StoryInfo}
    {aoAid : Nat} {now : Int} {r : StoryRow}
    (hf : findStory db sid = some r) (hc : check_update r sm = false) :
    sfm_update db sid sm aoAid now = db := by
  unfold sfm_update
  rw [hf]
  dsimp only
  rw [hc]
  simp

theorem sfm_update_of_found_true {db : DB} {sid : Nat} {sm : StoryInfo}
    {aoAid : Nat} {now : Int} {r : StoryRow}
    (hf : findStory db sid = some r) (hc : check_update r sm = true) :
    sfm_update db sid sm aoAid now = sfm_upd_path db sid sm aoAid now := by
  unfold sfm_update
  rw [hf]
  dsimp only
  rw [hc]
  simp

/-- Effect of `_story_from_md`'s conditional-update stage on a resolved
existing row. -/
theorem sfm_step_existing {db : DB} {sm : StoryInfo} {archive : String}
    {aoAid : Nat} (now : Int) {r0 : StoryRow}
    (hWF : WFdb db)
    (hao : ∃ a ∈ db.authors, a.aid = aoAid ∧ a.archive = archive)
    (hr0mem : r0 ∈ db.stories) (hr0arch : r0.archive = archive)
    (hr0site : r0.site_id = sm.id) :
    WFdb (sfm_update db r0.sid sm aoAid now) ∧
    (∃ r ∈ (sfm_update db r0.sid sm aoAid now).stories, r.sid = r0.sid ∧
      r.archive = archive ∧ r.site_id = sm.id ∧ check_update r sm = false) ∧
    (∀ r ∈ db.stories, ¬(r.archive = archive ∧ r.site_id = sm.id) →
      r ∈ (sfm_update db r0.sid sm aoAid now).stories) ∧
    (sfm_update db r0.sid sm aoAid now).fav_stories = db.fav_stories ∧
    (sfm_update db r0.sid sm aoAid now).authors = db.authors ∧
    db.next_id ≤ (sfm_update db r0.sid sm aoAid now).next_id ∧
    (∀ r ∈ db.stories, ∃ r' ∈ (sfm_update db r0.sid sm aoAid now).stories,
      r'.sid = r.sid ∧ r'.site_id = r.site_id ∧ r'.archive = r.archive) := by
  obtain ⟨keysN, sidsN, sidB, akeysN, aidsN, aidB, saOk, favOk⟩ := hWF
  have hf : findStory db r0.sid = some r0 := findStory_of_mem sidsN hr0mem
  have hnekey : ∀ r ∈ db.stories, ¬(r.archive = archive ∧ r.site_id = sm.id) →
      r.sid ≠ r0.sid := by
    intro r hr hkey he
    exact hkey (by
      have : r = r0 := List.inj_on_of_nodup_map sidsN hr hr0mem he
      rw [this]
      exact ⟨hr0arch, hr0site⟩)
  by_cases hc : check_update r0 sm = true
  · rw [sfm_update_of_found_true hf hc]
    obtain ⟨pWF, pD, pU, pF, pA, pN, pT⟩ := sfm_upd_pack db sm archive aoAid now
      keysN sidsN sidB akeysN aidsN aidB (fun r hr _ => saOk r hr) favOk
      hr0mem hr0arch hr0site hao
    exact ⟨pWF, pD, fun r hr hkey => pU r hr (hnekey r hr hkey), pF, pA, pN, pT⟩
  · have hcf : check_update r0 sm = false := Bool.eq_false_iff.mpr hc
    rw [sfm_update_of_found_false hf hcf]
    exact ⟨⟨keysN, sidsN, sidB, akeysN, aidsN, aidB, saOk, favOk⟩,
      ⟨r0, hr0mem, rfl, hr0arch, hr0site, hcf⟩,
      fun r hr _ => hr, rfl, rfl, le_refl _,
      fun r hr => ⟨r, hr, rfl, rfl, rfl⟩⟩

/-- Effect of one `_story_from_md` call inside a sync loop: the resolved (or
created) row ends up carrying the entry's metadata under its `(archive, id)`
key, well-formedness is preserved, and everything else survives. -/
theorem sfm_step_effect {db : DB} {sm : StoryInfo} {archive : String}
    {aoAid : Nat} {si_d : String → Option Nat} (now : Int)
    (hWF : WFdb db) (hsite : sm.site = archive)
    (hsd : SiDOk si_d archive db)
    (hao : ∃ a ∈ db.authors, a.aid = aoAid ∧ a.archive = archive) :
    ∃ db' sid, story_from_md db sm aoAid (si_d sm.id) now = (db', sid) ∧
      WFdb db' ∧
      (∃ r ∈ db'.stories, r.sid = sid ∧ r.archive = archive ∧
        r.site_id = sm.id ∧ check_update r sm = false) ∧
      (∀ r ∈ db.stories, ¬(r.archive = archive ∧ r.site_id = sm.id) →
        r ∈ db'.stories) ∧
      (∀ r1 ∈ db.stories, r1.archive = archive → r1.site_id = sm.id →
        r1.sid = sid) ∧
      db'.fav_stories = db.fav_stories ∧
      db'.authors = db.authors ∧
      db.next_id ≤ db'.next_id ∧
      (∀ r ∈ db.stories, ∃ r' ∈ db'.stories,
        r'.sid = r.sid ∧ r'.site_id = r.site_id ∧ r'.archive = r.archive) := by
  obtain ⟨keysN, sidsN, sidB, akeysN, aidsN, aidB, saOk, favOk⟩ := hWF
  have hK : ∀ (r0 : StoryRow), r0 ∈ db.stories → r0.archive = archive →
      r0.site_id = sm.id → ∀ r1 ∈ db.stories, r1.archive = archive →
      r1.site_id = sm.id → r1.sid = r0.sid := by
    intro r0 h0 h0a h0s r1 h1 h1a h1s
    have : r1 = r0 := List.inj_on_of_nodup_map keysN h1 h0
      (by rw [h0a, h0s, h1a, h1s])
    rw [this]
  rcases hrs : si_d sm.id with _ | msSid
  · rcases hg : get_story db archive sm.id with _ | r0
    · -- creation case
      have hres : sfm_resolve db sm none = none := by
        unfold sfm_resolve
        rw [hsite, hg]
        rfl
      rw [story_from_md_eq_created hres]
      have hkey_not : ((sm.site, sm.id) : String × String) ∉
          db.stories.map (fun s => (s.archive, s.site_id)) := by
        intro hmem
        obtain ⟨r, hr, hre⟩ := List.mem_map.mp hmem
        have h1 : r.archive = sm.site := congrArg Prod.fst hre
        have h2 : r.site_id = sm.id := congrArg Prod.snd hre
        exact get_story_eq_none hg r hr ⟨by rw [h1, hsite], h2⟩
      have hsid_not : db.next_id ∉ db.stories.map (fun s => s.sid) := by
        intro hmem
        obtain ⟨r, hr, hre⟩ := List.mem_map.mp hmem
        exact absurd hre (Nat.ne_of_lt (sidB r hr))
      have keysN2 : (((db.stories ++ [StoryRow.new db.next_id sm.site sm.id]).map
          (fun s => (s.archive, s.site_id)))).Nodup := by
        rw [List.map_append]
        rw [List.nodup_append]
        refine ⟨keysN, by simp, ?_⟩
        intro x hx hx2
        simp only [List.map_cons, List.map_nil, List.mem_singleton] at hx2
        rw [hx2] at hx
        exact hkey_not hx
      have sidsN2 : ((db.stories ++ [StoryRow.new db.next_id sm.site sm.id]).map
          (fun s => s.sid)).Nodup := by
        rw [List.map_append]
        rw [List.nodup_append]
        refine ⟨sidsN, by simp, ?_⟩
        intro x hx hx2
        simp only [List.map_cons, List.map_nil, List.mem_singleton] at hx2
        rw [hx2] at hx
        exact hsid_not hx
      have hnew_mem : StoryRow.new db.next_id sm.site sm.id ∈
          db.stories ++ [StoryRow.new db.next_id sm.site sm.id] :=
        List.mem_append_right _ (by simp)
      obtain ⟨pWF, pD, pU, pF, pA, pN, pT⟩ := sfm_upd_pack
        { db with
          stories := db.stories ++ [StoryRow.new db.next_id sm.site sm.id],
          next_id := db.next_id + 1 }
        sm archive aoAid now keysN2 sidsN2
        (by
          intro s hs
          rcases List.mem_append.mp hs with h | h
          · exact Nat.lt_succ_of_lt (sidB s h)
          · rw [List.mem_singleton.mp h]
            exact Nat.lt_succ_self _)
        akeysN aidsN
        (fun a ha => Nat.lt_succ_of_lt (aidB a ha))
        (by
          intro r hr hne
          rcases List.mem_append.mp hr with h | h
          · exact saOk r h
          · exact absurd (congrArg StoryRow.sid (List.mem_singleton.mp h)) hne)
        (by
          intro p hp
          obtain ⟨a, hamem, s, hsmem, hps, hsa⟩ := favOk p hp
          exact ⟨a, hamem, s, List.mem_append_left _ hsmem, hps, hsa⟩)
        hnew_mem (by exact hsite) rfl hao
      have hfnew : findStory { db with
          stories := db.stories ++ [StoryRow.new db.next_id sm.site sm.id],
          next_id := db.next_id + 1 } (StoryRow.new db.next_id sm.site sm.id).sid =
          some (StoryRow.new db.next_id sm.site sm.id) :=
        findStory_of_mem sidsN2 hnew_mem
      have hupd : sfm_update { db with
          stories := db.stories ++ [StoryRow.new db.next_id sm.site sm.id],
          next_id := db.next_id + 1 } db.next_id sm aoAid now =
          sfm_upd_path { db with
            stories := db.stories ++ [StoryRow.new db.next_id sm.site sm.id],
            next_id := db.next_id + 1 } db.next_id sm aoAid now :=
        sfm_update_of_found_true hfnew (check_update_new db.next_id sm.site sm.id sm)
      rw [hupd]
      refine ⟨_, _, rfl, pWF, ?_, ?_, ?_, ?_, ?_, ?_, ?_⟩
      · exact pD
      · intro r hr hkey
        refine pU r (List.mem_append_left _ hr) ?_
        exact Nat.ne_of_lt (sidB r hr)
      · intro r1 h1 h1a h1s
        exact absurd ⟨h1a, h1s⟩ (get_story_eq_none hg r1 h1)
      · exact pF
      · exact pA
      · exact le_trans (Nat.le_succ _) pN
      · intro r hr
        exact pT r (List.mem_append_left _ hr)
    · -- resolved through the store lookup
      obtain ⟨h0mem, h0arch, h0site⟩ := mem_of_get_story hg
      have hres : sfm_resolve db sm none = some r0.sid := by
        unfold sfm_resolve
        rw [hsite, hg]
        rfl
      rw [story_from_md_eq_resolved hres]
      obtain ⟨pWF, pD, pU, pF, pA, pN, pT⟩ := sfm_step_existing now
        ⟨keysN, sidsN, sidB, akeysN, aidsN, aidB, saOk, favOk⟩ hao h0mem h0arch h0site
      exact ⟨_, _, rfl, pWF, pD, pU,
        fun r1 h1 h1a h1s => hK r0 h0mem h0arch h0site r1 h1 h1a h1s,
        pF, pA, pN, pT⟩
  · -- resolved through the si_d index
    obtain ⟨r0, h0mem, h0sid, h0site, h0arch⟩ := hsd sm.id msSid hrs
    have hres : sfm_resolve db sm (some msSid) = some r0.sid := by
      unfold sfm_resolve
      rw [h0sid]
    rw [story_from_md_eq_resolved hres]
    obtain ⟨pWF, pD, pU, pF, pA, pN, pT⟩ := sfm_step_existing now
      ⟨keysN, sidsN, sidB, akeysN, aidsN, aidB, saOk, favOk⟩ hao h0mem h0arch h0site
    refine ⟨_, _, rfl, pWF, pD, pU,
      fun r1 h1 h1a h1s => hK r0 h0mem h0arch h0site r1 h1 h1a h1s,
      pF, pA, pN, pT⟩

theorem fav_link_pack {db : DB} {aoAid sid : Nat} {archive : String}
    (hWF : WFdb db)
    (hao : ∃ a ∈ db.authors, a.aid = aoAid ∧ a.archive = archive)
    (hrow : ∃ r ∈ db.stories, r.sid = sid ∧ r.archive = archive) :
    WFdb (fav_link db aoAid sid) ∧
    (aoAid, sid) ∈ (fav_link db aoAid sid).fav_stories ∧
    (∀ pr ∈ db.fav_stories, pr ∈ (fav_link db aoAid sid).fav_stories) ∧
    (fav_link db aoAid sid).stories = db.stories ∧
    (fav_link db aoAid sid).authors = db.authors ∧
    (fav_link db aoAid sid).next_id = db.next_id := by
  obtain ⟨keysN, sidsN, sidB, akeysN, aidsN, aidB, saOk, favOk⟩ := hWF
  unfold fav_link
  by_cases hc : (db.fav_stories.contains (aoAid, sid)) = true
  · rw [if_pos hc]
    exact ⟨⟨keysN, sidsN, sidB, akeysN, aidsN, aidB, saOk, favOk⟩,
      contains_pair_iff.mp hc, fun pr hp => hp, rfl, rfl, rfl⟩
  · rw [if_neg hc]
    obtain ⟨a, hamem, haid, harch⟩ := hao
    obtain ⟨r, hrmem, hrsid, hrarch⟩ := hrow
    refine ⟨⟨keysN, sidsN, sidB, akeysN, aidsN, aidB, saOk, ?_⟩,
      List.mem_append_right _ (by simp), fun pr hp => List.mem_append_left _ hp,
      rfl, rfl, rfl⟩
    intro p hp
    rcases List.mem_append.mp hp with h | h
    · exact favOk p h
    · rw [List.mem_singleton.mp h]
      exact ⟨a, hamem, r, hrmem, by rw [haid, hrsid], by rw [hrarch, harch]⟩

theorem fav_resolve_some_archive {db : DB} {archive : String}
    {si_d : String → Option Nat} {sm : StoryInfo} {faoAid : Nat}
    (hWF : WFdb db) (hsd : SiDOk si_d archive db)
    (h : fav_resolve_author db archive si_d sm = some faoAid) :
    ∃ a ∈ db.authors, a.aid = faoAid ∧ a.archive = archive := by
  obtain ⟨keysN, sidsN, sidB, akeysN, aidsN, aidB, saOk, favOk⟩ := hWF
  unfold fav_resolve_author at h
  rcases hms : si_d sm.id with _ | msSid
  · rw [hms] at h
    dsimp only at h
    rw [Option.map_eq_some'] at h
    obtain ⟨a, hga, haid⟩ := h
    obtain ⟨hamem, harch, _⟩ := mem_of_get_author hga
    exact ⟨a, hamem, haid, harch⟩
  · rw [hms] at h
    dsimp only at h
    obtain ⟨rr, hrrmem, hrrsid, hrrsite, hrrarch⟩ := hsd sm.id msSid hms
    have hf : findStory db msSid = some rr := by
      rw [← hrrsid]
      exact findStory_of_mem sidsN hrrmem
    rw [hf] at h
    simp only [Option.some_bind] at h
    obtain ⟨a, hamem, haid, harch⟩ := saOk rr hrrmem
    rw [haid] at h
    exact ⟨a, hamem, Option.some_inj.mp h, by rw [← harch, hrrarch]⟩

theorem fav_resolve_none {db : DB} {archive : String}
    {si_d : String → Option Nat} {sm : StoryInfo}
    (hWF : WFdb db) (hsd : SiDOk si_d archive db)
    (h : fav_resolve_author db archive si_d sm = none) :
    si_d sm.id = none ∧ get_author db archive sm.author.id = none := by
  obtain ⟨keysN, sidsN, sidB, akeysN, aidsN, aidB, saOk, favOk⟩ := hWF
  unfold fav_resolve_author at h
  rcases hms : si_d sm.id with _ | msSid
  · rw [hms] at h
    dsimp only at h
    rw [Option.map_eq_none'] at h
    exact ⟨rfl, h⟩
  · rw [hms] at h
    dsimp only at h
    obtain ⟨rr, hrrmem, hrrsid, hrrsite, hrrarch⟩ := hsd sm.id msSid hms
    have hf : findStory db msSid = some rr := by
      rw [← hrrsid]
      exact findStory_of_mem sidsN hrrmem
    rw [hf] at h
    simp only [Option.some_bind] at h
    obtain ⟨a, hamem, haid, harch⟩ := saOk rr hrrmem
    rw [haid] at h
    simp at h

theorem fav_stub_wf {db : DB} {archive : String} {sm : StoryInfo}
    (hWF : WFdb db)
    (hga : get_author db archive sm.author.id = none) :
    WFdb { db with
      authors := db.authors ++
        [{ aid := db.next_id, name := sm.author.name, archive := archive,
           site_id := sm.author.id, md_synced := none, sync_int := none,
           in_mirror := false }],
      next_id := db.next_id + 1 } := by
  obtain ⟨keysN, sidsN, sidB, akeysN, aidsN, aidB, saOk, favOk⟩ := hWF
  refine ⟨keysN, sidsN, fun s hs => Nat.lt_succ_of_lt (sidB s hs), ?_, ?_,
    ?_, ?_, ?_⟩
  · rw [List.map_append, List.nodup_append]
    refine ⟨akeysN, by simp, ?_⟩
    intro x hx hx2
    simp only [List.map_cons, List.map_nil, List.mem_singleton] at hx2
    rw [hx2] at hx
    obtain ⟨a, ha, hae⟩ := List.mem_map.mp hx
    have h1 : a.archive = archive := congrArg Prod.fst hae
    have h2 : a.site_id = sm.author.id := congrArg Prod.snd hae
    exact get_author_eq_none hga a ha ⟨h1, h2⟩
  · rw [List.map_append, List.nodup_append]
    refine ⟨aidsN, by simp, ?_⟩
    intro x hx hx2
    simp only [List.map_cons, List.map_nil, List.mem_singleton] at hx2
    rw [hx2] at hx
    obtain ⟨a, ha, hae⟩ := List.mem_map.mp hx
    exact absurd hae (Nat.ne_of_lt (aidB a ha))
  · intro a ha
    rcases List.mem_append.mp ha with h | h
    · exact Nat.lt_succ_of_lt (aidB a h)
    · rw [List.mem_singleton.mp h]
      exact Nat.lt_succ_self _
  · intro s hs
    obtain ⟨a, hamem, haid, harch⟩ := saOk s hs
    exact ⟨a, List.mem_append_left _ hamem, haid, harch⟩
  · intro p hp
    obtain ⟨a, hamem, s, hsmem, hps, hsa⟩ := favOk p hp
    exact ⟨a, List.mem_append_left _ hamem, s, hsmem, hps, hsa⟩

theorem fav_stub_effect {db : DB} {archive : String}
    {si_d : String → Option Nat} {sm : StoryInfo}
    (hWF : WFdb db) (hsd : SiDOk si_d archive db) :
    ∃ db1 faoAid,
      fav_author_stub db archive sm (fav_resolve_author db archive si_d sm) =
        (db1, faoAid) ∧
      WFdb db1 ∧ db1.stories = db.stories ∧ db1.fav_stories = db.fav_stories ∧
      (∀ a ∈ db.authors, a ∈ db1.authors) ∧ db.next_id ≤ db1.next_id ∧
      (∃ a ∈ db1.authors, a.aid = faoAid ∧ a.archive = archive) := by
  rcases hfr : fav_resolve_author db archive si_d sm with _ | faoAid
  · obtain ⟨hms, hga⟩ := fav_resolve_none hWF hsd hfr
    refine ⟨_, db.next_id, rfl, fav_stub_wf hWF hga, rfl, rfl,
      fun a ha => List.mem_append_left _ ha, Nat.le_succ _, ?_⟩
    exact ⟨{ aid := db.next_id, name := sm.author.name, archive := archive,
             site_id := sm.author.id, md_synced := none, sync_int := none,
             in_mirror := false },
           List.mem_append_right _ (by simp), rfl, rfl⟩
  · obtain ⟨a, hamem, haid, harch⟩ := fav_resolve_some_archive hWF hsd hfr
    exact ⟨db, faoAid, rfl, hWF, rfl, rfl, fun a ha => ha, Nat.le_refl _,
      ⟨a, hamem, haid, harch⟩⟩

theorem fav_step_effect {db : DB} {sm : StoryInfo} {archive : String}
    {aoAid : Nat} {si_d : String → Option Nat} (now : Int)
    (hWF : WFdb db) (hsite : sm.site = archive)
    (hsd : SiDOk si_d archive db)
    (hao : ∃ a ∈ db.authors, a.aid = aoAid ∧ a.archive = archive) :
    ∃ db' sid, fav_step archive aoAid si_d now db sm = db' ∧
      WFdb db' ∧
      (∃ r ∈ db'.stories, r.sid = sid ∧ r.archive = archive ∧
        r.site_id = sm.id ∧ check_update r sm = false ∧
        (aoAid, r.sid) ∈ db'.fav_stories) ∧
      (∀ r ∈ db.stories, ¬(r.archive = archive ∧ r.site_id = sm.id) →
        r ∈ db'.stories) ∧
      (∀ r1 ∈ db.stories, r1.archive = archive → r1.site_id = sm.id →
        r1.sid = sid) ∧
      (∀ pr ∈ db.fav_stories, pr ∈ db'.fav_stories) ∧
      (∀ a ∈ db.authors, a ∈ db'.authors) ∧
      db.next_id ≤ db'.next_id ∧
      (∀ r ∈ db.stories, ∃ r' ∈ db'.stories, r'.sid = r.sid ∧
        r'.site_id = r.site_id ∧ r'.archive = r.archive) := by
  obtain ⟨db1, faoAid, hstub, hWF1, hst1, hfav1, hau1, hnx1, hfao⟩ :=
    fav_stub_effect hWF hsd
  have hsd1 : SiDOk si_d archive db1 := by
    intro k s hks
    obtain ⟨r, hr, h1, h2, h3⟩ := hsd k s hks
    exact ⟨r, by rw [hst1]; exact hr, h1, h2, h3⟩
  obtain ⟨db2, sid, heq2, hWF2, hKey, hOther, hK, hfav2, hAuth2, hnx2, hT⟩ :=
    @sfm_step_effect db1 sm archive faoAid si_d now hWF1 hsite hsd1 hfao
  have hrow : ∃ r ∈ db2.stories, r.sid = sid ∧ r.archive = archive := by
    obtain ⟨r, hr, h1, h2, h3, h4⟩ := hKey
    exact ⟨r, hr, h1, h2⟩
  have hao2 : ∃ a ∈ db2.authors, a.aid = aoAid ∧ a.archive = archive := by
    obtain ⟨a, ha, h1, h2⟩ := hao
    exact ⟨a, by rw [hAuth2]; exact hau1 a ha, h1, h2⟩
  obtain ⟨hWF', hlink, hmono, hst', hau', hnx'⟩ :=
    @fav_link_pack db2 aoAid sid archive hWF2 hao2 hrow
  refine ⟨fav_link db2 aoAid sid, sid, ?_, hWF', ?_, ?_, ?_, ?_, ?_, ?_, ?_⟩
  · show fav_link
      (story_from_md
        (fav_author_stub db archive sm
          (fav_resolve_author db archive si_d sm)).1 sm
        (fav_author_stub db archive sm
          (fav_resolve_author db archive si_d sm)).2 (si_d sm.id) now).1
      aoAid
      (story_from_md
        (fav_author_stub db archive sm
          (fav_resolve_author db archive si_d sm)).1 sm
        (fav_author_stub db archive sm
          (fav_resolve_author db archive si_d sm)).2 (si_d sm.id) now).2 =
      fav_link db2 aoAid sid
    rw [hstub]
    dsimp only
    rw [heq2]
  · obtain ⟨r, hr, h1, h2, h3, h4⟩ := hKey
    refine ⟨r, by rw [hst']; exact hr, h1, h2, h3, h4, ?_⟩
    rw [h1]
    exact hlink
  · intro r hr hneg
    rw [hst']
    exact hOther r (by rw [hst1]; exact hr) hneg
  · intro r1 hr1 ha hs
    exact hK r1 (by rw [hst1]; exact hr1) ha hs
  · intro pr hp
    exact hmono pr (by rw [hfav2, hfav1]; exact hp)
  · intro a ha
    rw [hau', hAuth2]
    exact hau1 a ha
  · rw [hnx']
    exact le_trans hnx1 hnx2
  · intro r hr
    obtain ⟨r', hr', e1, e2, e3⟩ := hT r (by rw [hst1]; exact hr)
    exact ⟨r', by rw [hst']; exact hr', e1, e2, e3⟩

theorem estab1_preserved {archive : String} {db db' : DB}
    {sm sm' : StoryInfo} {sid : Nat}
    (hstep : StepFacts archive db db' sm' sid)
    (hcons : sm.id = sm'.id → sm = sm') :
    Estab1 archive db sm → Estab1 archive db' sm := by
  obtain ⟨hD, hO, hK, hF⟩ := hstep
  rintro ⟨r0, h0, ha, hs, hc⟩
  by_cases hk : r0.site_id = sm'.id
  · have hsm : sm = sm' := hcons (by rw [← hs, hk])
    obtain ⟨r, hr, h1, h2, h3, h4⟩ := hD
    exact ⟨r, hr, h2, by rw [h3, ← hsm], by rw [hsm]; exact h4⟩
  · exact ⟨r0, hO r0 h0 (fun hcon => hk hcon.2), ha, hs, hc⟩

theorem estab2_preserved {archive : String} {aoAid : Nat} {db db' : DB}
    {sm sm' : StoryInfo} {sid : Nat}
    (hstep : StepFacts archive db db' sm' sid)
    (hcons : sm.id = sm'.id → sm = sm') :
    Estab2 archive aoAid db sm → Estab2 archive aoAid db' sm := by
  obtain ⟨hD, hO, hK, hF⟩ := hstep
  rintro ⟨r0, h0, ha, hs, hc, hl⟩
  by_cases hk : r0.site_id = sm'.id
  · have hsm : sm = sm' := hcons (by rw [← hs, hk])
    obtain ⟨r, hr, h1, h2, h3, h4⟩ := hD
    have hsid0 : r0.sid = sid := hK r0 h0 ha hk
    refine ⟨r, hr, h2, by rw [h3, ← hsm], by rw [hsm]; exact h4, ?_⟩
    rw [h1, ← hsid0]
    exact hF _ hl
  · exact ⟨r0, hO r0 h0 (fun hcon => hk hcon.2), ha, hs, hc, hF _ hl⟩

theorem sidok_of_transfer {si_d : String → Option Nat} {archive : String}
    {db db' : DB} (hsd : SiDOk si_d archive db)
    (hT : ∀ r ∈ db.stories, ∃ r' ∈ db'.stories, r'.sid = r.sid ∧
      r'.site_id = r.site_id ∧ r'.archive = r.archive) :
    SiDOk si_d archive db' := by
  intro k s hks
  obtain ⟨r, hr, h1, h2, h3⟩ := hsd k s hks
  obtain ⟨r', hr', e1, e2, e3⟩ := hT r hr
  exact ⟨r', hr', by rw [e1, h1], by rw [e2, h2], by rw [e3, h3]⟩

theorem sfm_fold_effect (archive : String) (aoAid : Nat)
    (si_d : String → Option Nat) (now : Int) :
    ∀ (l : List StoryInfo) (db : DB), WFdb db →
      (∀ sm ∈ l, sm.site = archive) → SiDOk si_d archive db →
      (∀ x ∈ l, ∀ y ∈ l, x.id = y.id → x = y) →
      (∃ a ∈ db.authors, a.aid = aoAid ∧ a.archive = archive) →
      ∃ db',
        l.foldl (fun db sm => (story_from_md db sm aoAid (si_d sm.id) now).1)
          db = db' ∧
        WFdb db' ∧ SiDOk si_d archive db' ∧
        db'.authors = db.authors ∧ db'.fav_stories = db.fav_stories ∧
        db.next_id ≤ db'.next_id ∧
        (∀ sm ∈ l, Estab1 archive db' sm) ∧
        (∀ sm0 : StoryInfo, (∀ y ∈ l, sm0.id = y.id → sm0 = y) →
          Estab1 archive db sm0 → Estab1 archive db' sm0) ∧
        (∀ sm0 : StoryInfo, (∀ y ∈ l, sm0.id = y.id → sm0 = y) →
          Estab2 archive aoAid db sm0 → Estab2 archive aoAid db' sm0)
  | [], db, hWF, _, hsd, _, _ =>
    ⟨db, rfl, hWF, hsd, rfl, rfl, Nat.le_refl _, by simp,
      fun sm0 _ h => h, fun sm0 _ h => h⟩
  | sm :: l, db, hWF, hsites, hsd, hcons, hao => by
    obtain ⟨db1, sid1, heq1, hWF1, hD1, hO1, hK1, hfav1, hau1, hnx1, hT1⟩ :=
      sfm_step_effect now hWF (hsites sm (List.mem_cons_self sm l)) hsd hao
    have hsd1 : SiDOk si_d archive db1 := sidok_of_transfer hsd hT1
    have hao1 : ∃ a ∈ db1.authors, a.aid = aoAid ∧ a.archive = archive := by
      rw [hau1]; exact hao
    have hstep1 : StepFacts archive db db1 sm sid1 :=
      ⟨hD1, hO1, hK1, fun pr hp => by rw [hfav1]; exact hp⟩
    obtain ⟨db', hfold, hWF', hsd', hau', hfav', hnx', hEst', hC1, hC2⟩ :=
      sfm_fold_effect archive aoAid si_d now l db1 hWF1
        (fun x hx => hsites x (List.mem_cons_of_mem sm hx)) hsd1
        (fun x hx y hy => hcons x (List.mem_cons_of_mem sm hx) y
          (List.mem_cons_of_mem sm hy)) hao1
    refine ⟨db', ?_, hWF', hsd', by rw [hau', hau1],
      by rw [hfav', hfav1], le_trans hnx1 hnx', ?_, ?_, ?_⟩
    · rw [List.foldl_cons, heq1]
      exact hfold
    · intro x hx
      rcases List.mem_cons.mp hx with h | h
      · subst h
        refine hC1 x (fun y hy hxy => hcons x (List.mem_cons_self x l) y
          (List.mem_cons_of_mem x hy) hxy) ?_
        obtain ⟨r, hr, h1, h2, h3, h4⟩ := hD1
        exact ⟨r, hr, h2, h3, h4⟩
      · exact hEst' x h
    · intro sm0 hcons0 hE
      refine hC1 sm0 (fun y hy => hcons0 y (List.mem_cons_of_mem sm hy)) ?_
      exact estab1_preserved hstep1
        (fun h => hcons0 sm (List.mem_cons_self sm l) h) hE
    · intro sm0 hcons0 hE
      refine hC2 sm0 (fun y hy => hcons0 y (List.mem_cons_of_mem sm hy)) ?_
      exact estab2_preserved hstep1
        (fun h => hcons0 sm (List.mem_cons_self sm l) h) hE

theorem fav_fold_effect (archive : String) (aoAid : Nat)
    (si_d : String → Option Nat) (now : Int) :
    ∀ (l : List StoryInfo) (db : DB), WFdb db →
      (∀ sm ∈ l, sm.site = archive) → SiDOk si_d archive db →
      (∀ x ∈ l, ∀ y ∈ l, x.id = y.id → x = y) →
      (∃ a ∈ db.authors, a.aid = aoAid ∧ a.archive = archive) →
      ∃ db',
        l.foldl (fav_step archive aoAid si_d now) db = db' ∧
        WFdb db' ∧ SiDOk si_d archive db' ∧
        (∀ a ∈ db.authors, a ∈ db'.authors) ∧
        (∀ pr ∈ db.fav_stories, pr ∈ db'.fav_stories) ∧
        db.next_id ≤ db'.next_id ∧
        (∀ sm ∈ l, Estab2 archive aoAid db' sm) ∧
        (∀ sm0 : StoryInfo, (∀ y ∈ l, sm0.id = y.id → sm0 = y) →
          Estab1 archive db sm0 → Estab1 archive db' sm0) ∧
        (∀ sm0 : StoryInfo, (∀ y ∈ l, sm0.id = y.id → sm0 = y) →
          Estab2 archive aoAid db sm0 → Estab2 archive aoAid db' sm0)
  | [], db, hWF, _, hsd, _, _ =>
    ⟨db, rfl, hWF, hsd, fun a ha => ha, fun pr hp => hp, Nat.le_refl _,
      by simp, fun sm0 _ h => h, fun sm0 _ h => h⟩
  | sm :: l, db, hWF, hsites, hsd, hcons, hao => by
    obtain ⟨db1, sid1, heq1, hWF1, hD1, hO1, hK1, hfav1, hau1, hnx1, hT1⟩ :=
      fav_step_effect now hWF (hsites sm (List.mem_cons_self sm l)) hsd hao
    have hsd1 : SiDOk si_d archive db1 := sidok_of_transfer hsd hT1
    have hao1 : ∃ a ∈ db1.authors, a.aid = aoAid ∧ a.archive = archive := by
      obtain ⟨a, ha, h1, h2⟩ := hao
      exact ⟨a, hau1 a ha, h1, h2⟩
    have hstep1 : StepFacts archive db db1 sm sid1 := by
      obtain ⟨r, hr, h1, h2, h3, h4, h5⟩ := hD1
      exact ⟨⟨r, hr, h1, h2, h3, h4⟩, hO1, hK1, hfav1⟩
    obtain ⟨db', hfold, hWF', hsd', hau', hfav', hnx', hEst', hC1, hC2⟩ :=
      fav_fold_effect archive aoAid si_d now l db1 hWF1
        (fun x hx => hsites x (List.mem_cons_of_mem sm hx)) hsd1
        (fun x hx y hy => hcons x (List.mem_cons_of_mem sm hx) y
          (List.mem_cons_of_mem sm hy)) hao1
    refine ⟨db', ?_, hWF', hsd', fun a ha => hau' a (hau1 a ha),
      fun pr hp => hfav' pr (hfav1 pr hp), le_trans hnx1 hnx', ?_, ?_, ?_⟩
    · rw [List.foldl_cons, heq1]
      exact hfold
    · intro x hx
      rcases List.mem_cons.mp hx with h | h
      · subst h
        refine hC2 x (fun y hy hxy => hcons x (List.mem_cons_self x l) y
          (List.mem_cons_of_mem x hy) hxy) ?_
        obtain ⟨r, hr, h1, h2, h3, h4, h5⟩ := hD1
        exact ⟨r, hr, h2, h3, h4, h5⟩
      · exact hEst' x h
    · intro sm0 hcons0 hE
      refine hC1 sm0 (fun y hy => hcons0 y (List.mem_cons_of_mem sm hy)) ?_
      exact estab1_preserved hstep1
        (fun h => hcons0 sm (List.mem_cons_self sm l) h) hE
    · intro sm0 hcons0 hE
      refine hC2 sm0 (fun y hy => hcons0 y (List.mem_cons_of_mem sm hy)) ?_
      exact estab2_preserved hstep1
        (fun h => hcons0 sm (List.mem_cons_self sm l) h) hE

theorem updA_fun_preserves (t : Nat) (v : Option Int) (r : AuthorRow) :
    ((if (r.aid == t) = true then { r with md_synced := v } else r).aid =
      r.aid) ∧
    ((if (r.aid == t) = true then { r with md_synced := v } else r).archive =
      r.archive) ∧
    ((if (r.aid == t) = true then { r with md_synced := v } else r).site_id =
      r.site_id) := by
  by_cases h : (r.aid == t) = true
  · rw [if_pos h]
    exact ⟨rfl, rfl, rfl⟩
  · rw [if_neg h]
    exact ⟨rfl, rfl, rfl⟩

theorem updAuthor_msync_effect (db : DB) (t : Nat) (v : Option Int)
    (hWF : WFdb db) :
    WFdb (updAuthor db t (fun a => { a with md_synced := v })) ∧
    (updAuthor db t (fun a => { a with md_synced := v })).stories =
      db.stories ∧
    (updAuthor db t (fun a => { a with md_synced := v })).fav_stories =
      db.fav_stories ∧
    (updAuthor db t (fun a => { a with md_synced := v })).next_id =
      db.next_id ∧
    (∀ a ∈ db.authors,
      ∃ a' ∈ (updAuthor db t (fun a => { a with md_synced := v })).authors,
        a'.aid = a.aid ∧ a'.archive = a.archive ∧ a'.site_id = a.site_id) := by
  obtain ⟨keysN, sidsN, sidB, akeysN, aidsN, aidB, saOk, favOk⟩ := hWF
  have hkeys : (updAuthor db t
      (fun a => { a with md_synced := v })).authors.map
      (fun a => (a.archive, a.site_id)) =
      db.authors.map (fun a => (a.archive, a.site_id)) := by
    show ((db.authors.map (fun r =>
        if r.aid == t then { r with md_synced := v } else r)).map
      (fun a => (a.archive, a.site_id))) = _
    rw [List.map_map]
    exact List.map_congr_left (fun r _ => by
      have h := updA_fun_preserves t v r
      simp only [Function.comp]
      rw [h.2.1, h.2.2])
  have haids : (updAuthor db t
      (fun a => { a with md_synced := v })).authors.map (fun a => a.aid) =
      db.authors.map (fun a => a.aid) := by
    show ((db.authors.map (fun r =>
        if r.aid == t then { r with md_synced := v } else r)).map
      (fun a => a.aid)) = _
    rw [List.map_map]
    exact List.map_congr_left (fun r _ => by
      have h := updA_fun_preserves t v r
      simp only [Function.comp]
      rw [h.1])
  have hmem : ∀ a ∈ db.authors,
      ∃ a' ∈ (updAuthor db t (fun a => { a with md_synced := v })).authors,
        a'.aid = a.aid ∧ a'.archive = a.archive ∧ a'.site_id = a.site_id := by
    intro a ha
    have h := updA_fun_preserves t v a
    exact ⟨if a.aid == t then { a with md_synced := v } else a,
      List.mem_map.mpr ⟨a, ha, rfl⟩, h.1, h.2.1, h.2.2⟩
  refine ⟨⟨keysN, sidsN, sidB, ?_, ?_, ?_, ?_, ?_⟩, rfl, rfl, rfl, hmem⟩
  · rw [hkeys]
    exact akeysN
  · rw [haids]
    exact aidsN
  · intro a' ha'
    obtain ⟨a, ha, hg⟩ := List.mem_map.mp ha'
    have h := updA_fun_preserves t v a
    rw [← hg, h.1]
    exact aidB a ha
  · intro s hs
    obtain ⟨a, ha, hid, harch⟩ := saOk s hs
    have h := updA_fun_preserves t v a
    refine ⟨if a.aid == t then { a with md_synced := v } else a,
      List.mem_map.mpr ⟨a, ha, rfl⟩, ?_, ?_⟩
    · rw [h.1]
      exact hid
    · rw [h.2.1]
      exact harch
  · intro p hp
    obtain ⟨a, ha, s, hsmem, hpe, hsa⟩ := favOk p hp
    have h := updA_fun_preserves t v a
    refine ⟨if a.aid == t then { a with md_synced := v } else a,
      List.mem_map.mpr ⟨a, ha, rfl⟩, s, hsmem, ?_, ?_⟩
    · rw [h.1]
      exact hpe
    · rw [h.2.1]
      exact hsa

theorem build_si_d_sound {db : DB} {archive : String} {aoAid : Nat}
    (hWF : WFdb db)
    (hao : ∃ a ∈ db.authors, a.aid = aoAid ∧ a.archive = archive) :
    SiDOk (build_si_d db aoAid) archive db := by
  obtain ⟨keysN, sidsN, sidB, akeysN, aidsN, aidB, saOk, favOk⟩ := hWF
  obtain ⟨a, hamem, haid, harch⟩ := hao
  intro k s hks
  unfold build_si_d at hks
  rw [Option.map_eq_some'] at hks
  obtain ⟨r, hfind, hrs⟩ := hks
  have hrmem0 := List.mem_of_find?_eq_some hfind
  have hb := List.find?_some hfind
  have hrk : r.site_id = k := beq_iff_eq.mp hb
  rw [List.mem_reverse] at hrmem0
  rcases List.mem_append.mp hrmem0 with hsw | hfo
  · obtain ⟨hrmem, hp⟩ := List.mem_filter.mp hsw
    have hauth : r.author_id = some aoAid := beq_iff_eq.mp hp
    obtain ⟨a', ha'mem, ha'id, ha'arch⟩ := saOk r hrmem
    have h2 : a'.aid = aoAid := by
      have h3 : some a'.aid = some aoAid := by rw [← ha'id, hauth]
      exact Option.some_inj.mp h3
    have hae : a' = a :=
      List.inj_on_of_nodup_map aidsN ha'mem hamem (by rw [h2, haid])
    exact ⟨r, hrmem, hrs, hrk, by rw [ha'arch, hae, harch]⟩
  · obtain ⟨hrmem, hp⟩ := List.mem_filter.mp hfo
    have hlink : (aoAid, r.sid) ∈ db.fav_stories := contains_pair_iff.mp hp
    obtain ⟨a', ha'mem, s', hs'mem, hpe, hsa⟩ := favOk _ hlink
    have h2 : a'.aid = aoAid := (congrArg Prod.fst hpe).symm
    have h3 : s'.sid = r.sid := (congrArg Prod.snd hpe).symm
    have hae : a' = a :=
      List.inj_on_of_nodup_map aidsN ha'mem hamem (by rw [h2, haid])
    have hse : s' = r := List.inj_on_of_nodup_map sidsN hs'mem hrmem h3
    exact ⟨r, hrmem, hrs, hrk, by rw [← hse, hsa, hae, harch]⟩

theorem sync_reconcile_establishes {db : DB} {archive aid : String}
    {aoAid : Nat} {lr : ListResult} (now : Int)
    (hWF : WFdb db) (hat : AuthorAt db archive aid aoAid)
    (hdata : DataOk archive lr) :
    ∃ db', sync_reconcile db archive aoAid lr now = db' ∧
      WFdb db' ∧ AuthorAt db' archive aid aoAid ∧
      SyncEstab db' archive aoAid lr := by
  obtain ⟨hWF1, hst1, hfav1, hnx1, hTA1⟩ :=
    updAuthor_msync_effect db aoAid (some now) hWF
  obtain ⟨a0, ha0mem, ha0id, ha0arch, ha0site⟩ := hat
  obtain ⟨a1, ha1mem, he1, he2, he3⟩ := hTA1 a0 ha0mem
  have hat1 : AuthorAt (updAuthor db aoAid
      (fun a => { a with md_synced := some now })) archive aid aoAid :=
    ⟨a1, ha1mem, by rw [he1, ha0id], by rw [he2, ha0arch],
      by rw [he3, ha0site]⟩
  have hao1 : ∃ a ∈ (updAuthor db aoAid
      (fun a => { a with md_synced := some now })).authors,
      a.aid = aoAid ∧ a.archive = archive := by
    obtain ⟨a, ham, h1, h2, h3⟩ := hat1
    exact ⟨a, ham, h1, h2⟩
  have hsd1 := build_si_d_sound hWF1 hao1
  obtain ⟨db2, hfa, hWF2, hsd2, hau2, hfav2, hnx2, hEstA, hCA1, hCA2⟩ :=
    sfm_fold_effect archive aoAid
      (build_si_d (updAuthor db aoAid
        (fun a => { a with md_synced := some now })) aoAid) now lr.auth
      (updAuthor db aoAid (fun a => { a with md_synced := some now }))
      hWF1 (fun sm hsm => hdata.1 sm (List.mem_append_left _ hsm)) hsd1
      (fun x hx y hy => hdata.2 x (List.mem_append_left _ hx) y
        (List.mem_append_left _ hy)) hao1
  have hat2 : AuthorAt db2 archive aid aoAid := by
    obtain ⟨a, ham, h1, h2, h3⟩ := hat1
    exact ⟨a, by rw [hau2]; exact ham, h1, h2, h3⟩
  have hao2 : ∃ a ∈ db2.authors, a.aid = aoAid ∧ a.archive = archive := by
    obtain ⟨a, ham, h1, h2, h3⟩ := hat2
    exact ⟨a, ham, h1, h2⟩
  obtain ⟨db3, hff, hWF3, hsd3, hau3, hfav3, hnx3, hEstF, hCF1, hCF2⟩ :=
    fav_fold_effect archive aoAid
      (build_si_d (updAuthor db aoAid
        (fun a => { a with md_synced := some now })) aoAid) now lr.fav db2
      hWF2 (fun sm hsm => hdata.1 sm (List.mem_append_right _ hsm)) hsd2
      (fun x hx y hy => hdata.2 x (List.mem_append_right _ hx) y
        (List.mem_append_right _ hy)) hao2
  refine ⟨db3, ?_, hWF3, ?_, ?_, ?_⟩
  · show lr.fav.foldl (fav_step archive aoAid
      (build_si_d (updAuthor db aoAid
        (fun a => { a with md_synced := some now })) aoAid) now)
      (lr.auth.foldl (fun d sm => (story_from_md d sm aoAid
        ((build_si_d (updAuthor db aoAid
          (fun a => { a with md_synced := some now })) aoAid) sm.id) now).1)
        (updAuthor db aoAid (fun a => { a with md_synced := some now }))) =
      db3
    rw [hfa]
    exact hff
  · obtain ⟨a, ham, h1, h2, h3⟩ := hat2
    exact ⟨a, hau3 a ham, h1, h2, h3⟩
  · intro sm hsm
    exact hCF1 sm
      (fun y hy hxy => hdata.2 sm (List.mem_append_left _ hsm) y
        (List.mem_append_right _ hy) hxy) (hEstA sm hsm)
  · intro sm hsm
    exact hEstF sm hsm

theorem story_from_md_noop {db : DB} {sm : StoryInfo} {archive : String}
    (aoAid : Nat) {si_d : String → Option Nat} (now : Int)
    (hWF : WFdb db) (hsite : sm.site = archive)
    (hsd : SiDOk si_d archive db) {r0 : StoryRow}
    (h0 : r0 ∈ db.stories) (ha : r0.archive = archive)
    (hs : r0.site_id = sm.id) (hc : check_update r0 sm = false) :
    story_from_md db sm aoAid (si_d sm.id) now = (db, r0.sid) := by
  have keysN := hWF.1
  have sidsN := hWF.2.1
  have hres : sfm_resolve db sm (si_d sm.id) = some r0.sid := by
    rcases hms : si_d sm.id with _ | e
    · show (get_story db sm.site sm.id).map (fun r => r.sid) = some r0.sid
      have hg := get_story_of_mem keysN h0
      rw [ha, hs] at hg
      rw [hsite, hg]
      rfl
    · obtain ⟨r1, h1, h1s, h1k, h1a⟩ := hsd sm.id e hms
      have he : r1 = r0 :=
        List.inj_on_of_nodup_map keysN h1 h0 (by rw [h1a, ha, h1k, hs])
      show some e = some r0.sid
      rw [← h1s, he]
  have hf : findStory db r0.sid = some r0 := findStory_of_mem sidsN h0
  have hupd : sfm_update db r0.sid sm aoAid now = db := by
    unfold sfm_update
    rw [hf]
    dsimp only
    rw [hc]
    simp
  have hcr : sfm_create db sm (some r0.sid) = (db, r0.sid) := rfl
  show (sfm_update (sfm_create db sm (sfm_resolve db sm (si_d sm.id))).1
      (sfm_create db sm (sfm_resolve db sm (si_d sm.id))).2 sm aoAid now,
    (sfm_create db sm (sfm_resolve db sm (si_d sm.id))).2) = (db, r0.sid)
  rw [hres, hcr]
  dsimp only
  rw [hupd]

theorem build_si_d_isSome_of_fav {db : DB} {aoAid : Nat} {r0 : StoryRow}
    (h0 : r0 ∈ db.stories) (hl : (aoAid, r0.sid) ∈ db.fav_stories) :
    (build_si_d db aoAid r0.site_id).isSome = true := by
  have hmem : r0 ∈ (stories_written db aoAid ++
      fav_stories_of db aoAid).reverse := by
    rw [List.mem_reverse]
    apply List.mem_append_right
    show r0 ∈ db.stories.filter
      (fun so => db.fav_stories.contains (aoAid, so.sid))
    rw [List.mem_filter]
    exact ⟨h0, contains_pair_iff.mpr hl⟩
  show (((stories_written db aoAid ++ fav_stories_of db aoAid).reverse.find?
    (fun s => s.site_id == r0.site_id)).map (fun s => s.sid)).isSome = true
  rcases hfind : ((stories_written db aoAid ++
      fav_stories_of db aoAid).reverse.find?
      (fun s => s.site_id == r0.site_id)) with _ | r
  · exact absurd (by simp : ((fun s => s.site_id == r0.site_id) r0) = true)
      (List.find?_eq_none.mp hfind r0 hmem)
  · rw [hfind]
    rfl

theorem fav_step_noop {db : DB} {sm : StoryInfo} {archive : String}
    {aoAid : Nat} {si_d : String → Option Nat} (now : Int)
    (hWF : WFdb db) (hsite : sm.site = archive)
    (hsd : SiDOk si_d archive db)
    (hms : (si_d sm.id).isSome = true)
    (hE : Estab2 archive aoAid db sm) :
    fav_step archive aoAid si_d now db sm = db := by
  obtain ⟨r0, h0, ha, hs, hc, hl⟩ := hE
  obtain ⟨e, he⟩ := Option.isSome_iff_exists.mp hms
  obtain ⟨r1, h1, h1s, h1k, h1a⟩ := hsd sm.id e he
  have keysN := hWF.1
  have sidsN := hWF.2.1
  have saOk := hWF.2.2.2.2.2.2.1
  have hr10 : r1 = r0 :=
    List.inj_on_of_nodup_map keysN h1 h0 (by rw [h1a, ha, h1k, hs])
  have hfind : findStory db e = some r0 := by
    rw [← h1s, hr10]
    exact findStory_of_mem sidsN h0
  obtain ⟨a', ha'mem, ha'id, ha'arch⟩ := saOk r0 h0
  have hfr : fav_resolve_author db archive si_d sm = some a'.aid := by
    unfold fav_resolve_author
    rw [he]
    dsimp only
    rw [hfind]
    simp only [Option.some_bind]
    exact ha'id
  have hsfm : story_from_md db sm a'.aid (si_d sm.id) now = (db, r0.sid) :=
    story_from_md_noop a'.aid now hWF hsite hsd h0 ha hs hc
  have hfl : fav_link db aoAid r0.sid = db := by
    unfold fav_link
    rw [if_pos (contains_pair_iff.mpr hl)]
  have hstub : fav_author_stub db archive sm (some a'.aid) = (db, a'.aid) :=
    rfl
  show fav_link
      (story_from_md
        (fav_author_stub db archive sm
          (fav_resolve_author db archive si_d sm)).1 sm
        (fav_author_stub db archive sm
          (fav_resolve_author db archive si_d sm)).2 (si_d sm.id) now).1
      aoAid
      (story_from_md
        (fav_author_stub db archive sm
          (fav_resolve_author db archive si_d sm)).1 sm
        (fav_author_stub db archive sm
          (fav_resolve_author db archive si_d sm)).2 (si_d sm.id) now).2 = db
  rw [hfr, hstub]
  dsimp only
  rw [hsfm]
  exact hfl

theorem sfm_fold_noop (archive : String) (aoAid : Nat)
    (si_d : String → Option Nat) (now : Int) :
    ∀ (l : List StoryInfo) (db : DB), WFdb db →
      (∀ sm ∈ l, sm.site = archive) → SiDOk si_d archive db →
      (∀ sm ∈ l, Estab1 archive db sm) →
      l.foldl (fun d sm => (story_from_md d sm aoAid (si_d sm.id) now).1)
        db = db
  | [], _, _, _, _, _ => rfl
  | sm :: l, db, hWF, hsites, hsd, hE => by
    obtain ⟨r0, h0, ha, hs, hc⟩ := hE sm (List.mem_cons_self sm l)
    have h1 := story_from_md_noop aoAid now hWF
      (hsites sm (List.mem_cons_self sm l)) hsd h0 ha hs hc
    simp only [List.foldl_cons, h1]
    exact sfm_fold_noop archive aoAid si_d now l db hWF
      (fun x hx => hsites x (List.mem_cons_of_mem sm hx)) hsd
      (fun x hx => hE x (List.mem_cons_of_mem sm hx))

theorem fav_fold_noop (archive : String) (aoAid : Nat)
    (si_d : String → Option Nat) (now : Int) :
    ∀ (l : List StoryInfo) (db : DB), WFdb db →
      (∀ sm ∈ l, sm.site = archive) → SiDOk si_d archive db →
      (∀ sm ∈ l, Estab2 archive aoAid db sm ∧
        (si_d sm.id).isSome = true) →
      l.foldl (fav_step archive aoAid si_d now) db = db
  | [], _, _, _, _, _ => rfl
  | sm :: l, db, hWF, hsites, hsd, hE => by
    have hstep : fav_step archive aoAid si_d now db sm = db :=
      fav_step_noop now hWF (hsites sm (List.mem_cons_self sm l)) hsd
        (hE sm (List.mem_cons_self sm l)).2
        (hE sm (List.mem_cons_self sm l)).1
    simp only [List.foldl_cons, hstep]
    exact fav_fold_noop archive aoAid si_d now l db hWF
      (fun x hx => hsites x (List.mem_cons_of_mem sm hx)) hsd
      (fun x hx => hE x (List.mem_cons_of_mem sm hx))

theorem sync_reconcile_noop {db : DB} {archive aid : String} {aoAid : Nat}
    {lr : ListResult} (now : Int)
    (hWF : WFdb db) (hat : AuthorAt db archive aid aoAid)
    (hdata : DataOk archive lr)
    (hEst : SyncEstab db archive aoAid lr) :
    sync_reconcile db archive aoAid lr now =
      updAuthor db aoAid (fun a => { a with md_synced := some now }) := by
  obtain ⟨hWF1, hst1, hfav1, hnx1, hTA1⟩ :=
    updAuthor_msync_effect db aoAid (some now) hWF
  obtain ⟨a0, ha0mem, ha0id, ha0arch, ha0site⟩ := hat
  obtain ⟨a1, ha1mem, he1, he2, he3⟩ := hTA1 a0 ha0mem
  have hao1 : ∃ a ∈ (updAuthor db aoAid
      (fun a => { a with md_synced := some now })).authors,
      a.aid = aoAid ∧ a.archive = archive :=
    ⟨a1, ha1mem, by rw [he1, ha0id], by rw [he2, ha0arch]⟩
  have hsd1 := build_si_d_sound hWF1 hao1
  have hE1 : ∀ sm ∈ lr.auth, Estab1 archive (updAuthor db aoAid
      (fun a => { a with md_synced := some now })) sm := by
    intro sm hsm
    obtain ⟨r, hr, x1, x2, x3⟩ := hEst.1 sm hsm
    exact ⟨r, hr, x1, x2, x3⟩
  have hE2 : ∀ sm ∈ lr.fav, Estab2 archive aoAid (updAuthor db aoAid
      (fun a => { a with md_synced := some now })) sm ∧
      (build_si_d (updAuthor db aoAid
        (fun a => { a with md_synced := some now }))
        aoAid sm.id).isSome = true := by
    intro sm hsm
    obtain ⟨r, hr, x1, x2, x3, x4⟩ := hEst.2 sm hsm
    refine ⟨⟨r, hr, x1, x2, x3, x4⟩, ?_⟩
    have hiso : (build_si_d db aoAid r.site_id).isSome = true :=
      build_si_d_isSome_of_fav hr x4
    rw [← x2]
    exact hiso
  have hfa := sfm_fold_noop archive aoAid
    (build_si_d (updAuthor db aoAid
      (fun a => { a with md_synced := some now })) aoAid) now lr.auth
    (updAuthor db aoAid (fun a => { a with md_synced := some now }))
    hWF1 (fun sm hsm => hdata.1 sm (List.mem_append_left _ hsm)) hsd1 hE1
  have hff := fav_fold_noop archive aoAid
    (build_si_d (updAuthor db aoAid
      (fun a => { a with md_synced := some now })) aoAid) now lr.fav
    (updAuthor db aoAid (fun a => { a with md_synced := some now }))
    hWF1 (fun sm hsm => hdata.1 sm (List.mem_append_right _ hsm)) hsd1 hE2
  show lr.fav.foldl (fav_step archive aoAid
      (build_si_d (updAuthor db aoAid
        (fun a => { a with md_synced := some now })) aoAid) now)
      (lr.auth.foldl (fun d sm => (story_from_md d sm aoAid
        ((build_si_d (updAuthor db aoAid
          (fun a => { a with md_synced := some now })) aoAid) sm.id) now).1)
        (updAuthor db aoAid (fun a => { a with md_synced := some now }))) =
      updAuthor db aoAid (fun a => { a with md_synced := some now })
  rw [hfa]
  exact hff

theorem append_author_wf {db : DB} {nr : AuthorRow}
    (hWF : WFdb db) (haid : nr.aid = db.next_id)
    (hkey : ∀ a ∈ db.authors,
      ¬(a.archive = nr.archive ∧ a.site_id = nr.site_id)) :
    WFdb { db with authors := db.authors ++ [nr],
                   next_id := db.next_id + 1 } := by
  obtain ⟨keysN, sidsN, sidB, akeysN, aidsN, aidB, saOk, favOk⟩ := hWF
  refine ⟨keysN, sidsN, fun s hs => Nat.lt_succ_of_lt (sidB s hs), ?_, ?_,
    ?_, ?_, ?_⟩
  · rw [List.map_append, List.nodup_append]
    refine ⟨akeysN, by simp, ?_⟩
    intro x hx hx2
    simp only [List.map_cons, List.map_nil, List.mem_singleton] at hx2
    rw [hx2] at hx
    obtain ⟨a, ha, hae⟩ := List.mem_map.mp hx
    exact hkey a ha ⟨congrArg Prod.fst hae, congrArg Prod.snd hae⟩
  · rw [List.map_append, List.nodup_append]
    refine ⟨aidsN, by simp, ?_⟩
    intro x hx hx2
    simp only [List.map_cons, List.map_nil, List.mem_singleton] at hx2
    rw [hx2, haid] at hx
    obtain ⟨a, ha, hae⟩ := List.mem_map.mp hx
    exact absurd hae (Nat.ne_of_lt (aidB a ha))
  · intro a ha
    rcases List.mem_append.mp ha with h | h
    · exact Nat.lt_succ_of_lt (aidB a h)
    · rw [List.mem_singleton.mp h, haid]
      exact Nat.lt_succ_self _
  · intro s hs
    obtain ⟨a, hamem, haid2, harch⟩ := saOk s hs
    exact ⟨a, List.mem_append_left _ hamem, haid2, harch⟩
  · intro p hp
    obtain ⟨a, hamem, s, hsmem, hps, hsa⟩ := favOk p hp
    exact ⟨a, List.mem_append_left _ hamem, s, hsmem, hps, hsa⟩

theorem sync_acquire_analysis {db : DB} {ido : SyncRef} {info : AuthorInfo}
    {dbA : DB} {aoAid : Nat}
    (hWF : WFdb db) (href : RefOk db ido)
    (hacq : sync_acquire_author db (ref_archive ido) (ref_aid ido) info
      (ref_author db ido) = some (dbA, aoAid)) :
    WFdb dbA ∧ AuthorAt dbA (ref_archive ido) (ref_aid ido) aoAid ∧
      (∀ ao, ido = Sum.inl ao → ao.aid = aoAid) := by
  have aidsN := hWF.2.2.2.2.1
  have akeysN := hWF.2.2.2.1
  rcases ido with ao | pr
  · dsimp only [ref_archive, ref_aid, ref_author] at hacq ⊢
    have hmem : ao ∈ db.authors := href
    have hfa : findAuthor db ao.aid = some ao := findAuthor_of_mem aidsN hmem
    have hacq2 : sync_acquire_author db ao.archive ao.site_id info
        (some ao) = some (db, ao.aid) := by
      unfold sync_acquire_author
      dsimp only
      rw [hfa]
    rw [hacq2] at hacq
    have hpe : (db, ao.aid) = (dbA, aoAid) := Option.some_inj.mp hacq
    have h1 : db = dbA := congrArg Prod.fst hpe
    have h2 : ao.aid = aoAid := congrArg Prod.snd hpe
    subst h1
    refine ⟨hWF, ⟨ao, hmem, h2, rfl, rfl⟩, ?_⟩
    intro ao' hao'
    have hoe : ao = ao' := Sum.inl.inj hao'
    rw [← hoe]
    exact h2
  · dsimp only [ref_archive, ref_aid, ref_author] at hacq ⊢
    rcases hga : get_author db pr.1 pr.2 with _ | a
    · rw [hga] at hacq
      have hacq2 : sync_acquire_author db pr.1 pr.2 info none =
          some ({ db with
                  authors := db.authors ++
                    [{ aid := db.next_id, name := info.name,
                       archive := pr.1, site_id := pr.2, md_synced := none,
                       sync_int := some 86400, in_mirror := false }],
                  next_id := db.next_id + 1 }, db.next_id) := rfl
      rw [hacq2] at hacq
      have hpe := Option.some_inj.mp hacq
      have h1 : ({ db with
                   authors := db.authors ++
                     [{ aid := db.next_id, name := info.name,
                        archive := pr.1, site_id := pr.2, md_synced := none,
                        sync_int := some 86400, in_mirror := false }],
                   next_id := db.next_id + 1 } : DB) = dbA :=
        congrArg Prod.fst hpe
      have h2 : db.next_id = aoAid := congrArg Prod.snd hpe
      subst h1
      refine ⟨?_, ?_, ?_⟩
      · exact append_author_wf hWF rfl
          (fun a ha hcon => get_author_eq_none hga a ha hcon)
      · exact ⟨{ aid := db.next_id, name := info.name, archive := pr.1,
                 site_id := pr.2, md_synced := none,
                 sync_int := some 86400, in_mirror := false },
          List.mem_append_right _ (by simp), h2, rfl, rfl⟩
      · intro ao' hao'
        exact absurd hao' (by simp)
    · rw [hga] at hacq
      obtain ⟨hamem, harch, hsite⟩ := mem_of_get_author hga
      have hfa : findAuthor db a.aid = some a := findAuthor_of_mem aidsN hamem
      have hacq2 : sync_acquire_author db pr.1 pr.2 info (some a) =
          some (db, a.aid) := by
        unfold sync_acquire_author
        dsimp only
        rw [hfa]
      rw [hacq2] at hacq
      have hpe := Option.some_inj.mp hacq
      have h1 : db = dbA := congrArg Prod.fst hpe
      have h2 : a.aid = aoAid := congrArg Prod.snd hpe
      subst h1
      refine ⟨hWF, ⟨a, hamem, h2, harch, hsite⟩, ?_⟩
      intro ao' hao'
      exact absurd hao' (by simp)

theorem sync_author_ok_elim {ad : Adapter} {db : DB} {ido : SyncRef}
    {now : Int} {p : Bool} {lr : ListResult} {evs : List JobStatus}
    {db1 : DB}
    (hdl : ad.download_list (ref_archive ido) (ref_aid ido) = .ok lr)
    (hrun : sync_author ad db ido now p = (evs, .ok db1)) :
    ∃ dbA aoAid,
      sync_acquire_author db (ref_archive ido) (ref_aid ido) lr.info
        (ref_author db ido) = some (dbA, aoAid) ∧
      evs = [] ∧ db1 = sync_reconcile dbA (ref_archive ido) aoAid lr now := by
  unfold sync_author at hrun
  dsimp only at hrun
  rw [hdl] at hrun
  dsimp only at hrun
  rcases hacq : sync_acquire_author db (ref_archive ido) (ref_aid ido)
      lr.info (ref_author db ido) with _ | ⟨dbA, aoAid⟩
  · rw [hacq] at hrun
    simp at hrun
  · rw [hacq] at hrun
    dsimp only at hrun
    have h1 := congrArg Prod.fst hrun
    have h2 := congrArg Prod.snd hrun
    have h3 : sync_reconcile dbA (ref_archive ido) aoAid lr now = db1 := by
      injection h2
    exact ⟨dbA, aoAid, rfl, h1.symm, h3.symm⟩

theorem sync_author_ok_intro (ad : Adapter) (db : DB) (ido : SyncRef)
    (now : Int) (p : Bool) {lr : ListResult} {dbA : DB} {aoAid : Nat}
    (hdl : ad.download_list (ref_archive ido) (ref_aid ido) = .ok lr)
    (hacq : sync_acquire_author db (ref_archive ido) (ref_aid ido) lr.info
      (ref_author db ido) = some (dbA, aoAid)) :
    sync_author ad db ido now p =
      ([], .ok (sync_reconcile dbA (ref_archive ido) aoAid lr now)) := by
  unfold sync_author
  dsimp only
  rw [hdl]
  dsimp only
  rw [hacq]

theorem sync_acquire_run2 {db : DB} {ido : SyncRef} {aoAid : Nat}
    (info : AuthorInfo) (hWF : WFdb db)
    (hat : AuthorAt db (ref_archive ido) (ref_aid ido) aoAid)
    (hinl : ∀ ao, ido = Sum.inl ao → ao.aid = aoAid) :
    sync_acquire_author db (ref_archive ido) (ref_aid ido) info
      (ref_author db ido) = some (db, aoAid) := by
  have aidsN := hWF.2.2.2.2.1
  have akeysN := hWF.2.2.2.1
  obtain ⟨a', ha'mem, ha'id, ha'arch, ha'site⟩ := hat
  rcases ido with ao | pr
  · have heq : ao.aid = aoAid := hinl ao rfl
    have hfa : findAuthor db ao.aid = some a' := by
      rw [heq, ← ha'id]
      exact findAuthor_of_mem aidsN ha'mem
    show sync_acquire_author db ao.archive ao.site_id info (some ao) =
      some (db, aoAid)
    unfold sync_acquire_author
    dsimp only
    rw [hfa, heq]
  · dsimp only [ref_archive, ref_aid] at ha'arch ha'site
    have hga : get_author db pr.1 pr.2 = some a' := by
      rw [← ha'arch, ← ha'site]
      exact get_author_of_mem akeysN ha'mem
    have hfa : findAuthor db a'.aid = some a' :=
      findAuthor_of_mem aidsN ha'mem
    show sync_acquire_author db pr.1 pr.2 info
      (get_author db pr.1 pr.2) = some (db, aoAid)
    rw [hga]
    unfold sync_acquire_author
    dsimp only
    rw [hfa, ha'id]

theorem sync_author_second_run_core
    (ad : Adapter) (db : DB) (ido : SyncRef) (now1 now2 : Int) (p : Bool)
    {lr : ListResult} {evs1 : List JobStatus} {db1 : DB}
    (hWF : WFdb db) (href : RefOk db ido)
    (hdl : ad.download_list (ref_archive ido) (ref_aid ido) = .ok lr)
    (hdata : DataOk (ref_archive ido) lr)
    (hrun1 : sync_author ad db ido now1 p = (evs1, .ok db1)) :
    ∃ aoAid, resolved_aid db1 ido = some aoAid ∧
      sync_author ad db1 ido now2 p =
        ([], .ok (updAuthor db1 aoAid
          (fun a => { a with md_synced := some now2 }))) := by
  obtain ⟨dbA, aoAid, hacq, hevs, hdb1⟩ := sync_author_ok_elim hdl hrun1
  obtain ⟨hWFA, hatA, hinl⟩ := sync_acquire_analysis hWF href hacq
  obtain ⟨db1', hrec, hWF1, hat1, hEst1⟩ :=
    sync_reconcile_establishes now1 hWFA hatA hdata
  have hdb1' : db1 = db1' := by rw [hdb1, hrec]
  subst hdb1'
  have hacq2 := sync_acquire_run2 lr.info hWF1 hat1 hinl
  have hrun2 := sync_author_ok_intro ad db1 ido now2 p hdl hacq2
  have hnoop := sync_reconcile_noop now2 hWF1 hat1 hdata hEst1
  refine ⟨aoAid, ?_, ?_⟩
  · obtain ⟨a', ha'mem, ha'id, ha'arch, ha'site⟩ := hat1
    rcases ido with ao | pr
    · show (some ao).map (fun a => a.aid) = some aoAid
      rw [Option.map_some']
      exact congrArg some (hinl ao rfl)
    · show (get_author db1 pr.1 pr.2).map (fun a => a.aid) = some aoAid
      dsimp only [ref_archive, ref_aid] at ha'arch ha'site
      have hga : get_author db1 pr.1 pr.2 = some a' := by
        rw [← ha'arch, ← ha'site]
        exact get_author_of_mem hWF1.2.2.2.1 ha'mem
      rw [hga, Option.map_some']
      exact congrArg some ha'id
  · rw [hrun2, hnoop]

/-- C5 (counterexample to the literal claim): two successive fixture syncs of
the same author with identical adapter data leave the story table and the row
counts unchanged, but the second run does change a field value: the author
row's `md_synced` stamp moves from the first run's clock (0) to the second
run's clock (5), so the two committed states differ. -/
theorem sync_author_twice_changes_md_synced :
    (sync_author exAdapter exSyncDb1 (Sum.inr ("ff", "a1")) 5 true).2 =
      .ok exSyncDb2 ∧
    exSyncDb2 ≠ exSyncDb1 ∧
    (∃ a ∈ exSyncDb1.authors, a.site_id = "a1" ∧ a.md_synced = some 0) ∧
    (∃ a ∈ exSyncDb2.authors, a.site_id = "a1" ∧ a.md_synced = some 5) ∧
    exSyncDb2.stories = exSyncDb1.stories ∧
    exSyncDb2.authors.length = exSyncDb1.authors.length ∧
    exSyncDb2.tags = exSyncDb1.tags ∧
    exSyncDb2.next_id = exSyncDb1.next_id := by
  refine ⟨rfl, ?_, ?_, ?_, rfl, rfl, rfl, rfl⟩
  · decide
  · decide
  · decide

/-- C5 (amended): under a well-formed store, a valid author reference and a
self-consistent listing, a second `sync_author` run over the state committed
by a first run commits exactly the first state with the resolved author row's
`md_synced` column restamped to the second run's clock: no story, author,
tag, tag-link or favourite-link rows are created or removed, the fresh-key
counter is unchanged, and every row other than the synced author row is
byte-for-byte untouched.  (The literal claim, that no field value at all
changes, is refuted by `sync_author_twice_changes_md_synced`.) -/
theorem sync_author_second_run_restamps_only
    (ad : Adapter) (db : DB) (ido : SyncRef) (now1 now2 : Int) (p : Bool)
    (lr : ListResult) (evs1 : List JobStatus) (db1 : DB)
    (hWF : WFdb db) (href : RefOk db ido)
    (hdl : ad.download_list (ref_archive ido) (ref_aid ido) = .ok lr)
    (hdata : DataOk (ref_archive ido) lr)
    (hrun1 : sync_author ad db ido now1 p = (evs1, .ok db1)) :
    ∃ aoAid, resolved_aid db1 ido = some aoAid ∧
      sync_author ad db1 ido now2 p = ([], .ok (updAuthor db1 aoAid
        (fun a => { a with md_synced := some now2 }))) ∧
      (updAuthor db1 aoAid (fun a => { a with md_synced := some now2 })
        ).stories = db1.stories ∧
      (updAuthor db1 aoAid (fun a => { a with md_synced := some now2 })
        ).tags = db1.tags ∧
      (updAuthor db1 aoAid (fun a => { a with md_synced := some now2 })
        ).story_tags = db1.story_tags ∧
      (updAuthor db1 aoAid (fun a => { a with md_synced := some now2 })
        ).fav_stories = db1.fav_stories ∧
      (updAuthor db1 aoAid (fun a => { a with md_synced := some now2 })
        ).next_id = db1.next_id ∧
      (updAuthor db1 aoAid (fun a => { a with md_synced := some now2 })
        ).authors.length = db1.authors.length ∧
      (∀ a ∈ db1.authors, a.aid ≠ aoAid →
        a ∈ (updAuthor db1 aoAid
          (fun a => { a with md_synced := some now2 })).authors) := by
  obtain ⟨aoAid, hres, hrun2⟩ :=
    sync_author_second_run_core ad db ido now1 now2 p hWF href hdl hdata
      hrun1
  refine ⟨aoAid, hres, hrun2, rfl, rfl, rfl, rfl, rfl, by simp [updAuthor],
    ?_⟩
  intro a ha hne
  show a ∈ db1.authors.map (fun r =>
    if r.aid == aoAid then { r with md_synced := some now2 } else r)
  refine List.mem_map.mpr ⟨a, ha, ?_⟩
  rw [if_neg (by simp [hne])]

/-- Closed witness for the amended C5 theorem: the hypotheses hold at the
empty-store fixture sync, and the conclusion is obtained by applying the
theorem there. -/
theorem sync_author_second_run_restamps_only_witness :
    (WFdb exEmptyDb ∧ RefOk exEmptyDb (Sum.inr ("ff", "a1")) ∧
      exAdapter.download_list (ref_archive (Sum.inr ("ff", "a1")))
        (ref_aid (Sum.inr ("ff", "a1"))) =
        .ok ⟨[exStoryInfo], [], exAuthorInfo⟩ ∧
      DataOk (ref_archive (Sum.inr ("ff", "a1")))
        ⟨[exStoryInfo], [], exAuthorInfo⟩ ∧
      sync_author exAdapter exEmptyDb (Sum.inr ("ff", "a1")) 0 true =
        ([], .ok exSyncDb1)) ∧
    (∃ aoAid,
      resolved_aid exSyncDb1 (Sum.inr ("ff", "a1")) = some aoAid ∧
      sync_author exAdapter exSyncDb1 (Sum.inr ("ff", "a1")) 5 true =
        ([], .ok (updAuthor exSyncDb1 aoAid
          (fun a => { a with md_synced := some 5 }))) ∧
      (updAuthor exSyncDb1 aoAid (fun a => { a with md_synced := some 5 })
        ).stories = exSyncDb1.stories ∧
      (updAuthor exSyncDb1 aoAid (fun a => { a with md_synced := some 5 })
        ).tags = exSyncDb1.tags ∧
      (updAuthor exSyncDb1 aoAid (fun a => { a with md_synced := some 5 })
        ).story_tags = exSyncDb1.story_tags ∧
      (updAuthor exSyncDb1 aoAid (fun a => { a with md_synced := some 5 })
        ).fav_stories = exSyncDb1.fav_stories ∧
      (updAuthor exSyncDb1 aoAid (fun a => { a with md_synced := some 5 })
        ).next_id = exSyncDb1.next_id ∧
      (updAuthor exSyncDb1 aoAid (fun a => { a with md_synced := some 5 })
        ).authors.length = exSyncDb1.authors.length ∧
      (∀ a ∈ exSyncDb1.authors, a.aid ≠ aoAid →
        a ∈ (updAuthor exSyncDb1 aoAid
          (fun a => { a with md_synced := some 5 })).authors)) :=
  ⟨⟨by unfold WFdb; decide, trivial, rfl, by unfold DataOk; decide, rfl⟩,
    sync_author_second_run_restamps_only exAdapter exEmptyDb
      (Sum.inr ("ff", "a1")) 0 5 true ⟨[exStoryInfo], [], exAuthorInfo⟩ []
      exSyncDb1 (by unfold WFdb; decide) trivial rfl
      (by unfold DataOk; decide) rfl⟩

end FFMirror
